import Mathlib

/-!
Verification development for the Mongolian address-parsing rule engine
(`app/address_rules.py`, `app/main.py`, `app/schemas.py`).

The Python source is shallowly embedded over `List Char`:
* strings are lists of characters;
* `unicodedata.normalize("NFKC", ·)` is modelled as the identity on the
  character set the rules manipulate (ASCII, the Cyrillic block, `№` and
  punctuation), and `str.upper` as the character-wise upper-casing map on
  that set;
* every compiled regular expression of the source is hand-compiled into a
  recursive scanner with the exact semantics of Python `re` for that
  pattern (left-most match, greedy bounded repetition with backtracking,
  ordered alternation, word boundaries `\b`, look-ahead / look-behind);
* machine integers are `Nat` (all numbers in the source are small
  non-negative decimals), confidences are `ℚ` (the source only compares
  them for equality against exact decimal literals);
* `difflib.SequenceMatcher.ratio` is implemented by the same
  longest-matching-block recursion as the CPython source (the inputs the
  engine feeds it are short, so the autojunk heuristic never applies).

Scanners that consume more than one character per step take an explicit
fuel argument so that every definition is executable by kernel reduction;
the public wrappers supply `length + 1` fuel, which is always sufficient
because each step consumes at least one character.
-/

namespace ML

/-- Shorthand: the character list of a string literal. -/
def lc (s : String) : List Char := s.toList

/-! ## Character classes (Python `re` semantics on the modelled alphabet) -/

/-- ASCII decimal digit, Python `\d` on the modelled alphabet. -/
def isDigitChar (c : Char) : Bool :=
  48 ≤ c.toNat && c.toNat ≤ 57

/-- Python `\s` on the modelled alphabet. -/
def isSpaceChar (c : Char) : Bool :=
  c = ' ' || c = '\t' || c = '\n' || c = '\r' ||
  c = Char.ofNat 11 || c = Char.ofNat 12

/-- Python `\w` (word character) on the modelled alphabet:
ASCII alphanumerics, underscore, and the Cyrillic block U+0400–U+04FF. -/
def isWordCharPy (c : Char) : Bool :=
  let n := c.toNat
  (65 ≤ n && n ≤ 90) || (97 ≤ n && n ≤ 122) || (48 ≤ n && n ≤ 57) ||
  c = '_' || (1024 ≤ n && n ≤ 1279)

/-- Character class of `RE_WORDS`: `[A-ZА-ЯӨҮЁ0-9]` with `re.I`. -/
def isTokenChar (c : Char) : Bool :=
  let n := c.toNat
  (65 ≤ n && n ≤ 90) || (97 ≤ n && n ≤ 122) || (48 ≤ n && n ≤ 57) ||
  (1040 ≤ n && n ≤ 1071) || (1072 ≤ n && n ≤ 1103) ||
  n = 1025 || n = 1105 || n = 1256 || n = 1257 || n = 1198 || n = 1199

/-- Character class kept by `_korpus_clean`: `[0-9А-ЯӨҮЁA-Z]` (no `re.I`). -/
def isKorpusChar (c : Char) : Bool :=
  let n := c.toNat
  (48 ≤ n && n ≤ 57) || (65 ≤ n && n ≤ 90) ||
  (1040 ≤ n && n ≤ 1071) || n = 1025 || n = 1256 || n = 1198

/-- The class `[А-ЯӨҮЁA-Z]` used by the fallback building patterns. -/
def isUpperLetterClass (c : Char) : Bool :=
  let n := c.toNat
  (65 ≤ n && n ≤ 90) || (1040 ≤ n && n ≤ 1071) ||
  n = 1025 || n = 1256 || n = 1198

/-- `SEP_CHARS = [.\\\/\-#$^&*?`~:;<>|]` (building-related separators). -/
def isSepChar (c : Char) : Bool :=
  c = '.' || c = '\\' || c = '/' || c = '-' || c = '#' || c = '$' ||
  c = '^' || c = '&' || c = '*' || c = '?' || c = Char.ofNat 96 ||
  c = '~' || c = ':' || c = ';' || c = '<' || c = '>' || c = '|'

/-- The three separators accepted by the horoo-stripper look-ahead and by
`RE_BAIR_XAALGA_TOKEN`: `[-./]`. -/
def isDashDotSlash (c : Char) : Bool :=
  c = '-' || c = '.' || c = '/'

/-- Character-wise upper-casing (`str.upper` on the modelled alphabet:
ASCII letters, Cyrillic а–я, ё, ө, ү; identity elsewhere). -/
def upperChar (c : Char) : Char :=
  let n := c.toNat
  if 97 ≤ n && n ≤ 122 then Char.ofNat (n - 32)
  else if 1072 ≤ n && n ≤ 1103 then Char.ofNat (n - 32)
  else if n = 1105 then Char.ofNat 1025
  else if n = 1257 then Char.ofNat 1256
  else if n = 1199 then Char.ofNat 1198
  else c

/-! ## Generic string helpers -/

/-- Word-character test on an optional "previous character" (`none` at the
start of the string, where `\b` holds before a word character). -/
def isWordO : Option Char → Bool
  | none => false
  | some c => isWordCharPy c

/-- Python `\b` between a previous character and the character `c` that the
match starts with. -/
def bndBefore (prev : Option Char) (c : Char) : Bool :=
  isWordO prev != isWordCharPy c

/-- Python `\b` after a character `l` (the last consumed one), given the
rest of the input. -/
def bndAfter (l : Char) (rest : List Char) : Bool :=
  match rest with
  | [] => isWordCharPy l
  | c :: _ => isWordCharPy l != isWordCharPy c

/-- Last element of a list, with a default. -/
def lastD (l : List Char) (d : Char) : Char :=
  match l with
  | [] => d
  | [c] => c
  | _ :: c :: t => lastD (c :: t) d

/-- Case-insensitive literal match: if (the upper-casing of) `s` starts
with the literal `lit`, return the consumed input slice and the rest. -/
def stripLitCI : List Char → List Char → Option (List Char × List Char)
  | [], s => some ([], s)
  | _ :: _, [] => none
  | l :: ls, c :: cs =>
    if upperChar c = l then
      match stripLitCI ls cs with
      | some (m, r) => some (c :: m, r)
      | none => none
    else none

/-- Ordered alternation over literals, each followed by a `\b` check:
returns the consumed slice and rest for the first alternative that matches
and whose last character sits on a word boundary with the rest. -/
def firstAltB (alts : List (List Char)) (s : List Char) : Option (List Char × List Char) :=
  match alts with
  | [] => none
  | a :: t =>
    match stripLitCI a s with
    | some (m, r) =>
      match m with
      | [] => firstAltB t s
      | c :: cs => if bndAfter (lastD (c :: cs) c) r then some (m, r) else firstAltB t s
    | none => firstAltB t s

/-- Ordered alternation over literals without a boundary check: returns
the consumed slice and rest for the first alternative that matches. -/
def firstAlt (alts : List (List Char)) (s : List Char) : Option (List Char × List Char) :=
  match alts with
  | [] => none
  | a :: t =>
    match stripLitCI a s with
    | some (m, r) => some (m, r)
    | none => firstAlt t s

/-- Strip leading and trailing whitespace (`str.strip`). -/
def stripWS (s : List Char) : List Char :=
  ((s.dropWhile (fun c => isSpaceChar c)).reverse.dropWhile
    (fun c => isSpaceChar c)).reverse

/-- Worker for `collapseWS`: the flag records whether the previous
character belonged to a whitespace run already emitted as one space. -/
def collapseWSAux : Bool → List Char → List Char
  | _, [] => []
  | inRun, c :: rest =>
    if isSpaceChar c then
      if inRun then collapseWSAux true rest
      else ' ' :: collapseWSAux true rest
    else c :: collapseWSAux false rest

/-- `RE_SPACES.sub(" ", s)`: collapse every whitespace run to one space. -/
def collapseWS (s : List Char) : List Char :=
  collapseWSAux false s

/-- Decimal value of a digit list (`int` on a `\d+` group). -/
def natOfDigits (s : List Char) : Nat :=
  s.foldl (fun a c => 10 * a + (c.toNat - 48)) 0

/-- Worker for `natRepr` (most significant digits first). -/
def natReprAux : Nat → Nat → List Char
  | 0, _ => []
  | f + 1, n =>
    if n = 0 then []
    else natReprAux f (n / 10) ++ [Char.ofNat (48 + n % 10)]

/-- Decimal digit list of a `Nat` (`str` on a non-negative `int`). -/
def natRepr (n : Nat) : List Char :=
  if n = 0 then lc "0" else natReprAux n n

/-! ## Keyword alternation lists (in the order of the source patterns) -/

/-- Alternatives of `UNIT_WORD = (?:ТООТ|ТОТ|ТОО|Т|№|NO\.?|NO|TOOT|TOOT\.?)`
(each `X\.?` expanded into the ordered pair `X.`, `X`). -/
def unitWordAlts : List (List Char) :=
  [lc "ТООТ", lc "ТОТ", lc "ТОО", lc "Т", lc "№", lc "NO.", lc "NO",
   lc "TOOT", lc "TOOT.", lc "TOOT"]

/-- Alternatives of the keyword group of `RE_NUM_KEYWORD_GLUE` and
`RE_KEYWORD_NUM_GLUE`:
`BAIR|БАЙР|KORPUS|КОРПУС|CORPUS|TOOT|ТООТ|ТОТ|ТОО|Т|№|NO\.?|NO`. -/
def glueKwAlts : List (List Char) :=
  [lc "BAIR", lc "БАЙР", lc "KORPUS", lc "КОРПУС", lc "CORPUS", lc "TOOT",
   lc "ТООТ", lc "ТОТ", lc "ТОО", lc "Т", lc "№", lc "NO.", lc "NO", lc "NO"]

/-- `БАЙР|BAIR` (building keyword). -/
def bairAlts : List (List Char) := [lc "БАЙР", lc "BAIR"]

/-- `КОРПУС|KORPUS|CORPUS` (block keyword). -/
def korpusAlts : List (List Char) := [lc "КОРПУС", lc "KORPUS", lc "CORPUS"]

/-- `ХОРОО|HOROO|KHOROO` (sub-district keyword). -/
def horooKwAlts : List (List Char) := [lc "ХОРОО", lc "HOROO", lc "KHOROO"]

/-- `-Р|-R` (ordinal marker of the classic horoo pattern). -/
def ordinalAlts : List (List Char) := [lc "-Р", lc "-R"]

/-- `Х|H` (short-form horoo letter). -/
def shortHAlts : List (List Char) := [lc "Х", lc "H"]

/-- Keyword alternatives of the second negative look-ahead of the bare
horoo-digit eraser:
`BAIR|БАЙР|KORPUS|КОРПУС|CORPUS|{UNIT_WORD}`. -/
def bareLaKwAlts : List (List Char) :=
  [lc "BAIR", lc "БАЙР", lc "KORPUS", lc "КОРПУС", lc "CORPUS"] ++ unitWordAlts

/-! ## Normalizer (`normalize_address`) -/

/-- `_nfkc_upper`: NFKC (identity on the modelled alphabet), `upper`,
`strip`. -/
def nfkcUpper (s : List Char) : List Char :=
  stripWS (s.map upperChar)

/-- The three `str.replace` calls turning literal newline, carriage return
and tab into spaces. -/
def replCtlWS (s : List Char) : List Char :=
  s.map fun c => if c = '\n' || c = '\r' || c = '\t' then ' ' else c

/-- Worker for `RE_COMMAS.sub(" ", s)` with pattern `[，,]+`: the flag
records whether we are inside a comma run already emitted as one space. -/
def subCommasAux : Bool → List Char → List Char
  | _, [] => []
  | inRun, c :: rest =>
    if c = ',' || c = Char.ofNat 65292 then
      if inRun then subCommasAux true rest
      else ' ' :: subCommasAux true rest
    else c :: subCommasAux false rest

/-- `RE_COMMAS.sub(" ", s)`. -/
def subCommas (s : List Char) : List Char :=
  subCommasAux false s

/-- `RE_NUM_KEYWORD_GLUE.sub(r"\1 \2", s)`: pattern
`\b(\d+)\s*(KW)\b` with the `glueKwAlts` keywords, replaced by the two
groups separated by one space.  Left-most scan; `prev` is the character
before the current position (for `\b`). -/
def scanNumKwGlue (fuel : Nat) (prev : Option Char) (s : List Char) : List Char :=
  match fuel, s with
  | 0, s => s
  | _ + 1, [] => []
  | f + 1, c :: rest =>
    if isDigitChar c && !(isWordO prev) then
      let digits := c :: rest.takeWhile (fun c => isDigitChar c)
      let afterD := rest.dropWhile (fun c => isDigitChar c)
      let afterS := afterD.dropWhile (fun c => isSpaceChar c)
      match firstAltB glueKwAlts afterS with
      | some (m, r) =>
        digits ++ ' ' :: m ++ scanNumKwGlue f (some (lastD m c)) r
      | none => c :: scanNumKwGlue f (some c) rest
    else c :: scanNumKwGlue f (some c) rest

/-- Try the continuation `\s*(\d+)\b` of `RE_KEYWORD_NUM_GLUE` after a
matched keyword: returns the digit group and the rest. -/
def kwNumTail (r : List Char) : Option (List Char × List Char) :=
  let afterS := r.dropWhile (fun c => isSpaceChar c)
  match afterS with
  | d :: dr =>
    if isDigitChar d then
      let digits := d :: dr.takeWhile (fun c => isDigitChar c)
      let afterD := dr.dropWhile (fun c => isDigitChar c)
      if bndAfter (lastD digits d) afterD then some (digits, afterD) else none
    else none
  | [] => none

/-- Ordered alternation for `RE_KEYWORD_NUM_GLUE`: first keyword
alternative whose continuation `\s*(\d+)\b` also matches. -/
def firstKwNum (alts : List (List Char)) (s : List Char) :
    Option (List Char × List Char × List Char) :=
  match alts with
  | [] => none
  | a :: t =>
    match stripLitCI a s with
    | some (m, r) =>
      match kwNumTail r with
      | some (digits, rest) => some (m, digits, rest)
      | none => firstKwNum t s
    | none => firstKwNum t s

/-- `RE_KEYWORD_NUM_GLUE.sub(r"\1 \2", s)`: pattern `\b(KW)\s*(\d+)\b`. -/
def scanKwNumGlue (fuel : Nat) (prev : Option Char) (s : List Char) : List Char :=
  match fuel, s with
  | 0, s => s
  | _ + 1, [] => []
  | f + 1, c :: rest =>
    if bndBefore prev c then
      match firstKwNum glueKwAlts (c :: rest) with
      | some (m, digits, r) =>
        m ++ ' ' :: digits ++ scanKwNumGlue f (some (lastD digits c)) r
      | none => c :: scanKwNumGlue f (some c) rest
    else c :: scanKwNumGlue f (some c) rest

/-- `RE_UNIT_GLUE.sub(r"\1 \2", s)`: pattern `(\d+)\s*(UNIT_WORD)\b`
(no leading `\b`). -/
def scanUnitGlue (fuel : Nat) (s : List Char) : List Char :=
  match fuel, s with
  | 0, s => s
  | _ + 1, [] => []
  | f + 1, c :: rest =>
    if isDigitChar c then
      let digits := c :: rest.takeWhile (fun c => isDigitChar c)
      let afterD := rest.dropWhile (fun c => isDigitChar c)
      let afterS := afterD.dropWhile (fun c => isSpaceChar c)
      match firstAltB unitWordAlts afterS with
      | some (m, r) => digits ++ ' ' :: m ++ scanUnitGlue f r
      | none => c :: scanUnitGlue f rest
    else c :: scanUnitGlue f rest

/-- `normalize_address` (lines 171–187 of `address_rules.py`). -/
def normalize_address (text : List Char) : List Char :=
  if text = [] then []
  else
    let s := nfkcUpper text
    let s := replCtlWS s
    let s := subCommas s
    let s := scanNumKwGlue (s.length + 1) none s
    let s := scanKwNumGlue (s.length + 1) none s
    let s := scanUnitGlue (s.length + 1) s
    stripWS (collapseWS s)

/-! ## District data (`CANON_DISTRICTS`, `_ALIAS_TO_CANON`) -/

/-- `CANON_DISTRICTS`, in source order. -/
def canonDistricts : List (List Char × List (List Char)) :=
  [(lc "БАЯНЗҮРХ",
    [lc "БАЯНЗҮРХ", lc "БАНЗҮР", lc "БАЯНЗҮР", lc "БЗД", lc "БЗ", lc "БАНЗҮРХ",
     lc "БАЯНЗУРХ", lc "БАЯНЗҮРХД", lc "BAYANZURKH", lc "BAYNZURKH",
     lc "BAYNZURH", lc "BAYANZURH", lc "BAYANZUR", lc "BZD", lc "BZ",
     lc "BANZUR"]),
   (lc "БАЯНГОЛ",
    [lc "БАЯНГОЛ", lc "БАНГОЛ", lc "БЯНГОЛ", lc "БГД", lc "БГ",
     lc "BAYANGOL", lc "BAYNGOL", lc "BYANGOL", lc "BGD", lc "BG"]),
   (lc "СҮХБААТАР",
    [lc "СҮХБААТАР", lc "СҮХБАТАА", lc "СҮХБАТАР", lc "СБД", lc "СБ",
     lc "СУХБААТАР", lc "SUKHBAATAR", lc "SUKHBATAR", lc "SUHBATAR",
     lc "SUHBAATAR", lc "SBD", lc "SB"]),
   (lc "ЧИНГЭЛТЭЙ",
    [lc "ЧИНГЭЛТЭЙ", lc "ЧИНГИЛТЭЙ", lc "ЧЭНГЭЛТЭЙ", lc "ЧИНГЭЛТЙ",
     lc "ЧИНГИЛТЭ", lc "ЧИНГЭЛТЭ", lc "ЧД", lc "Ч", lc "CHINGELTEI",
     lc "CINGELTEI", lc "CHINGELTE", lc "CHINGILTEI", lc "CHINGELTEY",
     lc "CHD", lc "CH"]),
   (lc "СОНГИНОХАЙРХАН",
    [lc "СОНГИНОХАЙРХАН", lc "СОНГНОХАЙРХАН", lc "СОНГИНОХАРХАН",
     lc "СОНГИНХАЙРХАН", lc "СХД", lc "СХ", lc "SONGINOKHAIRKHAN",
     lc "SONGINKHAIRKHAN", lc "SONGINHAIRHAN", lc "SONGNOKHAIRKHAN",
     lc "SONGNOHAIRHAN", lc "SONGINOHAIRHAN", lc "SKHD", lc "SHD"]),
   (lc "ХАН-УУЛ",
    [lc "ХАН-УУЛ", lc "ХУД", lc "ХУ", lc "ХАН УУЛ", lc "ХАНУУЛ", lc "ХАНУЛ",
     lc "KHAN-UUL", lc "KHANUUL", lc "HAN-UUL", lc "HANUUL", lc "HUD",
     lc "HANUL", lc "KHANUL"]),
   (lc "НАЛАЙХ",
    [lc "НАЛАЙХ", lc "НАЛАХ", lc "НД", lc "Н", lc "NALAIKH", lc "NALAH",
     lc "NALAIH", lc "ND"]),
   (lc "БАГАНУУР",
    [lc "БАГАНУУР", lc "БАГНУУР", lc "БАГНУР", lc "БНД", lc "БН",
     lc "BAGANUUR", lc "BAGNUUR", lc "BAGNUR", lc "BAGANUR", lc "BND"]),
   (lc "БАГАХАНГАЙ",
    [lc "БАГАХАНГАЙ", lc "БАГХАНГАЙ", lc "БАГАХАНГА", lc "БХД", lc "БХ",
     lc "BAGAKHANGAI", lc "BAGKHANGAI", lc "BAGAKHANGA", lc "BAGHANGAI",
     lc "BAGAHANGAI", lc "BHD"])]

/-- Dictionary insert with Python `dict` semantics: an existing key keeps
its position and gets the new value, a fresh key is appended. -/
def dictInsert (d : List (List Char × List Char)) (k v : List Char) :
    List (List Char × List Char) :=
  match d with
  | [] => [(k, v)]
  | (k0, v0) :: t =>
    if k0 = k then (k0, v) :: t else (k0, v0) :: dictInsert t k v

/-- `_ALIAS_TO_CANON`: for each canonical district, every alias plus the
canonical name itself is stripped, upper-cased and inserted. -/
def aliasToCanon : List (List Char × List Char) :=
  canonDistricts.foldl
    (fun d p =>
      (p.2 ++ [p.1]).foldl
        (fun d a =>
          let a2 := stripWS (a.map upperChar)
          if a2 = [] then d else dictInsert d a2 p.1)
        d)
    []

/-- Association-list lookup (`dict.get` / `in`). -/
def dictFind (d : List (List Char × List Char)) (k : List Char) :
    Option (List Char) :=
  match d with
  | [] => none
  | (k0, v) :: t => if k0 = k then some v else dictFind t k

/-! ## `difflib.SequenceMatcher` (no junk: all inputs are short) -/

/-- One row step of `find_longest_match`: for position `i` of `a`, walk the
positions `j` of `b` (ascending) with `b[j] = a[i]`, building the new
`j2len` map and updating the best block `(besti, bestj, bestsize)`
exactly when `k > bestsize`. -/
def flmRow (ai : Char) (b : List Char) (blo bhi i : Nat)
    (j2len : List (Nat × Nat)) (best : Nat × Nat × Nat) :
    List (Nat × Nat) × (Nat × Nat × Nat) :=
  (List.range bhi).foldl
    (fun (st : List (Nat × Nat) × (Nat × Nat × Nat)) j =>
      if blo ≤ j && decide (b.getD j ' ' = ai) && decide (j < b.length) then
        let k := (if j = 0 then 0
                  else match j2len.lookup (j - 1) with
                       | some v => v
                       | none => 0) + 1
        let st1 := ((j, k) :: st.1, st.2)
        if st1.2.2.2 < k then (st1.1, (i + 1 - k, j + 1 - k, k)) else st1
      else st)
    ([], best)

/-- `SequenceMatcher.find_longest_match(alo, ahi, blo, bhi)` for junk-free
inputs: returns `(besti, bestj, bestsize)`.  The two post-loop extension
phases of the CPython source only act across junk elements and are
provably inert here, since `b2j` holds every element of `b`. -/
def findLongestMatch (a b : List Char) (alo ahi blo bhi : Nat) :
    Nat × Nat × Nat :=
  let step :=
    (List.range ahi).foldl
      (fun (st : List (Nat × Nat) × (Nat × Nat × Nat)) i =>
        if alo ≤ i && decide (i < a.length) then
          flmRow (a.getD i ' ') b blo bhi i st.1 st.2
        else st)
      ([], (alo, blo, 0))
  step.2

/-- Total size of the matching blocks of `get_matching_blocks`, computed by
the same divide-and-conquer recursion around each longest match. -/
def matchTotal (fuel : Nat) (a b : List Char) (alo ahi blo bhi : Nat) : Nat :=
  match fuel with
  | 0 => 0
  | f + 1 =>
    let (i, j, k) := findLongestMatch a b alo ahi blo bhi
    if k = 0 then 0
    else k + matchTotal f a b alo i blo j + matchTotal f a b (i + k) ahi (j + k) bhi

/-- `SequenceMatcher(None, a, b).ratio()` as an exact rational. -/
def smRatio (a b : List Char) : ℚ :=
  let m := matchTotal (a.length + b.length + 1) a b 0 a.length 0 b.length
  if a.length + b.length = 0 then 1
  else (2 * m : ℚ) / (a.length + b.length)

/-! ## District resolver (`_find_district`) -/

/-- `RE_WORDS.findall`: maximal runs of `isTokenChar`. -/
def tokensOfAux (acc : List Char) : List Char → List (List Char)
  | [] => if acc = [] then [] else [acc.reverse]
  | c :: rest =>
    if isTokenChar c then tokensOfAux (c :: acc) rest
    else if acc = [] then tokensOfAux [] rest
    else acc.reverse :: tokensOfAux [] rest

/-- Token list of a string. -/
def tokensOf (s : List Char) : List (List Char) :=
  tokensOfAux [] s

/-- `_clean_token_for_lookup`: upper-case, then drop every character that
is not a word character (the source class `[^\wА-ЯӨҮЁ]` equals `[^\w]`
because Python `\w` already contains the Cyrillic letters). -/
def cleanTokenForLookup (tok : List Char) : List Char :=
  (tok.map upperChar).filter (fun c => isWordCharPy c)

/-- Exact pass of `_find_district`: first token whose cleaned form is an
alias. -/
def districtExact : List (List Char) → Option (List Char)
  | [] => none
  | tok :: t =>
    match dictFind aliasToCanon (cleanTokenForLookup tok) with
    | some c => some c
    | none => districtExact t

/-- Two-token-window pass of `_find_district`. -/
def districtWindow : List (List Char) → Option (List Char)
  | [] => none
  | [_] => none
  | tok :: tok2 :: t =>
    match dictFind aliasToCanon (cleanTokenForLookup (tok ++ tok2)) with
    | some c => some c
    | none => districtWindow (tok2 :: t)

/-- Fuzzy pass of `_find_district`: best `SequenceMatcher` ratio over all
(token, alias) pairs of length ≥ 2, threshold `DISTRICT_MIN_SCORE = 0.85`,
strict improvement keeps the first-seen maximum. -/
def districtFuzzy (tokens : List (List Char)) : Option (List Char) :=
  let best :=
    tokens.foldl
      (fun (best : Option (List Char) × ℚ) tok =>
        let w := cleanTokenForLookup tok
        if w.length < 2 then best
        else
          aliasToCanon.foldl
            (fun (best : Option (List Char) × ℚ) av =>
              if av.1.length < 2 then best
              else
                let sc := smRatio w av.1
                if best.2 < sc && 85 / 100 ≤ sc then (some av.2, sc) else best)
            best)
      (none, 0)
  best.1

/-- `_find_district` (lines 193–221). -/
def find_district (text : List Char) : Option (List Char) :=
  let t := nfkcUpper text
  let tokens := tokensOf t
  match districtExact tokens with
  | some c => some c
  | none =>
    match districtWindow tokens with
    | some c => some c
    | none => districtFuzzy tokens

/-! ## Horoo resolver (`_find_horoo`) -/

/-- Try `RE_HOROO_CLASSIC = (\d{1,2})\s*(?:-Р|-R)?\s*(?:ХОРОО|HOROO|KHOROO)\b`
at the current position (no leading `\b`): greedy two-digit group with
backtracking to one digit, greedy optional ordinal marker. -/
def tryHorooClassicAt (s : List Char) : Option Nat :=
  match s with
  | c :: rest =>
    if isDigitChar c then
      let tryTail : List Char → Option Unit := fun afterD =>
        let afterS := afterD.dropWhile (fun c => isSpaceChar c)
        let tryKw : List Char → Option Unit := fun t =>
          match firstAltB horooKwAlts t with
          | some _ => some ()
          | none => none
        match firstAlt ordinalAlts afterS with
        | some (_, r) =>
          match tryKw (r.dropWhile (fun c => isSpaceChar c)) with
          | some _ => some ()
          | none => tryKw afterS
        | none => tryKw afterS
      match rest with
      | c2 :: rest2 =>
        if isDigitChar c2 then
          match tryTail rest2 with
          | some _ => some (natOfDigits [c, c2])
          | none =>
            match tryTail rest with
            | some _ => some (natOfDigits [c])
            | none => none
        else
          match tryTail rest with
          | some _ => some (natOfDigits [c])
          | none => none
      | [] => none
    else none
  | [] => none

/-- `RE_HOROO_CLASSIC.search`: left-most position where the pattern
matches. -/
def searchHorooClassic (fuel : Nat) (s : List Char) : Option Nat :=
  match fuel, s with
  | 0, _ => none
  | _ + 1, [] => none
  | f + 1, c :: rest =>
    match tryHorooClassicAt (c :: rest) with
    | some n => some n
    | none => searchHorooClassic f rest

/-- Try `RE_HOROO_SHORT = \b(\d{1,2})\s*(?:Х|H)\b` at the current
position. -/
def tryHorooShortAt (prev : Option Char) (s : List Char) : Option Nat :=
  match s with
  | c :: rest =>
    if isDigitChar c && !(isWordO prev) then
      let tryTail : List Char → Option Unit := fun afterD =>
        match firstAltB shortHAlts (afterD.dropWhile (fun c => isSpaceChar c)) with
        | some _ => some ()
        | none => none
      match rest with
      | c2 :: rest2 =>
        if isDigitChar c2 then
          match tryTail rest2 with
          | some _ => some (natOfDigits [c, c2])
          | none => none
        else
          match tryTail rest with
          | some _ => some (natOfDigits [c])
          | none => none
      | [] => none
    else none
  | [] => none

/-- `RE_HOROO_SHORT.search`. -/
def searchHorooShort (fuel : Nat) (prev : Option Char) (s : List Char) : Option Nat :=
  match fuel, s with
  | 0, _ => none
  | _ + 1, [] => none
  | f + 1, c :: rest =>
    match tryHorooShortAt prev (c :: rest) with
    | some n => some n
    | none => searchHorooShort f (some c) rest

/-- Try `\b{alias}\b\s*(\d{1,2})\b` at the current position (the
district-adjacent-number heuristic of `_find_horoo`). -/
def tryAliasNumAt (al : List Char) (prev : Option Char) (s : List Char) :
    Option Nat :=
  match s with
  | c :: _ =>
    if bndBefore prev c then
      match stripLitCI al s with
      | some (m, r) =>
        if bndAfter (lastD m c) r then
          let afterS := r.dropWhile (fun c => isSpaceChar c)
          match afterS with
          | d :: dr =>
            if isDigitChar d then
              match dr with
              | d2 :: dr2 =>
                if isDigitChar d2 then
                  if bndAfter d2 dr2 then some (natOfDigits [d, d2])
                  else none
                else if bndAfter d dr then some (natOfDigits [d]) else none
              | [] => some (natOfDigits [d])
            else none
          | [] => none
        else none
      | none => none
    else none
  | [] => none

/-- Search for `\b{alias}\b\s*(\d{1,2})\b`. -/
def searchAliasNum (fuel : Nat) (al : List Char) (prev : Option Char)
    (s : List Char) : Option Nat :=
  match fuel, s with
  | 0, _ => none
  | _ + 1, [] => none
  | f + 1, c :: rest =>
    match tryAliasNumAt al prev (c :: rest) with
    | some n => some n
    | none => searchAliasNum f al (some c) rest

/-- The alias loop of `_find_horoo`: `CANON_DISTRICTS.get(district, []) +
[district]`, first alias whose pattern matches. -/
def horooFromAliases (aliases : List (List Char)) (textU : List Char) : Nat :=
  match aliases with
  | [] => 0
  | a :: t =>
    let aU := stripWS (a.map upperChar)
    if aU = [] then horooFromAliases t textU
    else
      match searchAliasNum (textU.length + 1) aU none textU with
      | some n => n
      | none => horooFromAliases t textU

/-- `CANON_DISTRICTS.get(district, [])`. -/
def canonAliases (district : List Char) : List (List Char) :=
  match canonDistricts.lookup district with
  | some l => l
  | none => []

/-- `_find_horoo` (lines 227–244). -/
def find_horoo (text : List Char) (district : List Char) : Nat :=
  match searchHorooClassic (text.length + 1) text with
  | some n => n
  | none =>
    match searchHorooShort (text.length + 1) none text with
    | some n => n
    | none =>
      if district = [] then 0
      else horooFromAliases (canonAliases district ++ [district]) (nfkcUpper text)

/-! ## Content stripper (lines 285–317 of `parse_with_rules`) -/

/-- Try the horoo-phrase pattern
`\b{h}\s*(?:-Р|-R)?\s*(?:ХОРОО|HOROO|KHOROO)\b` at the current position,
returning the rest after the match. -/
def tryHorooPhraseAAt (hd : List Char) (prev : Option Char) (s : List Char) :
    Option (List Char) :=
  match s, hd with
  | c :: _, h0 :: _ =>
    if bndBefore prev c && decide (upperChar c = h0) then
      match stripLitCI hd s with
      | some (_, r) =>
        let afterS := r.dropWhile (fun c => isSpaceChar c)
        let tryKw : List Char → Option (List Char) := fun t =>
          match firstAltB horooKwAlts t with
          | some (_, r2) => some r2
          | none => none
        match firstAlt ordinalAlts afterS with
        | some (_, r1) =>
          match tryKw (r1.dropWhile (fun c => isSpaceChar c)) with
          | some r2 => some r2
          | none => tryKw afterS
        | none => tryKw afterS
      | none => none
    else none
  | _, _ => none

/-- `re.sub` of the first horoo-phrase pattern with `" "`. -/
def subHorooPhraseA (fuel : Nat) (hd : List Char) (prev : Option Char)
    (s : List Char) : List Char :=
  match fuel, s with
  | 0, s => s
  | _ + 1, [] => []
  | f + 1, c :: rest =>
    match tryHorooPhraseAAt hd prev (c :: rest) with
    | some r => ' ' :: subHorooPhraseA f hd (some 'О') r
    | none => c :: subHorooPhraseA f hd (some c) rest

/-- Try the short horoo-phrase pattern `\b{h}\s*(?:Х|H)\b` at the current
position. -/
def tryHorooPhraseBAt (hd : List Char) (prev : Option Char) (s : List Char) :
    Option (List Char) :=
  match s, hd with
  | c :: _, h0 :: _ =>
    if bndBefore prev c && decide (upperChar c = h0) then
      match stripLitCI hd s with
      | some (_, r) =>
        match firstAltB shortHAlts (r.dropWhile (fun c => isSpaceChar c)) with
        | some (_, r2) => some r2
        | none => none
      | none => none
    else none
  | _, _ => none

/-- `re.sub` of the short horoo-phrase pattern with `" "`. -/
def subHorooPhraseB (fuel : Nat) (hd : List Char) (prev : Option Char)
    (s : List Char) : List Char :=
  match fuel, s with
  | 0, s => s
  | _ + 1, [] => []
  | f + 1, c :: rest =>
    match tryHorooPhraseBAt hd prev (c :: rest) with
    | some r => ' ' :: subHorooPhraseB f hd (some 'Х') r
    | none => c :: subHorooPhraseB f hd (some c) rest

/-- First negative look-ahead of the bare-digit eraser:
`(?!\s*[-./]\s*\d)` — does `\s*[-./]\s*\d` match here? -/
def laSepDigit (s : List Char) : Bool :=
  match s.dropWhile (fun c => isSpaceChar c) with
  | c :: rest =>
    if isDashDotSlash c then
      match rest.dropWhile (fun c => isSpaceChar c) with
      | d :: _ => isDigitChar d
      | [] => false
    else false
  | [] => false

/-- Second negative look-ahead of the bare-digit eraser:
`(?!\s*(?:BAIR|БАЙР|KORPUS|КОРПУС|CORPUS|{UNIT_WORD})\b)`. -/
def laKeyword (s : List Char) : Bool :=
  match firstAltB bareLaKwAlts (s.dropWhile (fun c => isSpaceChar c)) with
  | some _ => true
  | none => false

/-- Try the bare horoo-digit pattern
`(?<!\d)\b{h}\b(?!\s*[-./]\s*\d)(?!\s*(?:KW)\b)` at the current
position. -/
def tryBareHorooAt (hd : List Char) (prev : Option Char) (s : List Char) :
    Option (List Char) :=
  match s, hd with
  | c :: _, h0 :: _ =>
    if (match prev with
        | some p => !(isDigitChar p)
        | none => true) &&
       bndBefore prev c && decide (upperChar c = h0) then
      match stripLitCI hd s with
      | some (m, r) =>
        if bndAfter (lastD m c) r && !laSepDigit r && !laKeyword r then some r
        else none
      | none => none
    else none
  | _, _ => none

/-- `re.sub` of the bare horoo-digit pattern with `" "`; the digits of the
horoo number give the resume context. -/
def subBareHoroo (fuel : Nat) (hd : List Char) (prev : Option Char)
    (s : List Char) : List Char :=
  match fuel, s with
  | 0, s => s
  | _ + 1, [] => []
  | f + 1, c :: rest =>
    match tryBareHorooAt hd prev (c :: rest) with
    | some r => ' ' :: subBareHoroo f hd (some (lastD hd c)) r
    | none => c :: subBareHoroo f hd (some c) rest

/-- Try the whole-word pattern `\b{k}\b` at the current position. -/
def tryWordAt (k : List Char) (prev : Option Char) (s : List Char) :
    Option (List Char) :=
  match s with
  | c :: _ =>
    if bndBefore prev c then
      match stripLitCI k s with
      | some (m, r) => if bndAfter (lastD m c) r then some r else none
      | none => none
    else none
  | [] => none

/-- `re.sub(rf"\b{k}\b", " ", s)` for one skip-list word. -/
def subWord (fuel : Nat) (k : List Char) (prev : Option Char) (s : List Char) :
    List Char :=
  match fuel, s with
  | 0, s => s
  | _ + 1, [] => []
  | f + 1, c :: rest =>
    match tryWordAt k prev (c :: rest) with
    | some r => ' ' :: subWord f k (some (lastD k c)) r
    | none => c :: subWord f k (some c) rest

/-- The fixed city tokens of the skip list. -/
def citySkip : List (List Char) :=
  [lc "УЛААНБААТАР", lc "ULAANBAATAR", lc "UB", lc "ХОТ", lc "HOT"]

/-- Lines 287–317: remove the horoo phrase and the guarded bare horoo
digit, then the city and district alias tokens, and collapse whitespace;
the result is the residual `content_u`. -/
def stripContent (norm : List Char) (sumname : List Char) (horooid : Nat) :
    List Char :=
  let content :=
    if 0 < horooid then
      let hd := natRepr horooid
      let c1 := subHorooPhraseA (norm.length + 1) hd none norm
      let c2 := subHorooPhraseB (c1.length + 1) hd none c1
      subBareHoroo (c2.length + 1) hd none c2
    else norm
  let skip := citySkip ++ (if sumname = [] then [] else sumname :: canonAliases sumname)
  let contentU :=
    skip.foldl
      (fun cu k =>
        let kU := stripWS (k.map upperChar)
        if kU = [] then cu else subWord (cu.length + 1) kU none cu)
      (nfkcUpper content)
  stripWS (collapseWS contentU)

/-! ## Building-pattern searches (on the residual `content_u`) -/

/-- Take a maximal digit run bounded by `maxLen` only when the whole run
fits (a `(\d{1,maxLen})` group followed by a non-digit context never
matches a proper prefix of a run, since the shorter prefix is followed by
a digit).  Returns the digits and the rest. -/
def digitRunLe (maxLen : Nat) (s : List Char) : Option (List Char × List Char) :=
  match s with
  | c :: rest =>
    if isDigitChar c then
      let run := c :: rest.takeWhile (fun c => isDigitChar c)
      if run.length ≤ maxLen then some (run, rest.dropWhile (fun c => isDigitChar c))
      else none
    else none
  | [] => none

/-- `\s+`: at least one whitespace character. -/
def manySpace1 (s : List Char) : Option (List Char) :=
  match s with
  | c :: rest => if isSpaceChar c then some (rest.dropWhile (fun c => isSpaceChar c)) else none
  | [] => none

/-- Try `RE_BAIR_WORD = \b(\d{1,5})\s*(?:БАЙР|BAIR)\b` at a position. -/
def tryNumKwAt (alts : List (List Char)) (prev : Option Char) (s : List Char) :
    Option Nat :=
  match s with
  | c :: _ =>
    if isDigitChar c && !(isWordO prev) then
      match digitRunLe 5 s with
      | some (digits, afterD) =>
        match firstAltB alts (afterD.dropWhile (fun c => isSpaceChar c)) with
        | some _ => some (natOfDigits digits)
        | none => none
      | none => none
    else none
  | [] => none

/-- Generic search for `\b(\d{1,5})\s*(?:KW)\b`. -/
def searchNumKw (fuel : Nat) (alts : List (List Char)) (prev : Option Char)
    (s : List Char) : Option Nat :=
  match fuel, s with
  | 0, _ => none
  | _ + 1, [] => none
  | f + 1, c :: rest =>
    match tryNumKwAt alts prev (c :: rest) with
    | some n => some n
    | none => searchNumKw f alts (some c) rest

/-- Alternation worker for `\b(?:KW)\s*(\d{1,5})\b`: first keyword
alternative whose digit continuation also matches. -/
def kwNumAltsGo (s : List Char) : List (List Char) → Option Nat
  | [] => none
  | a :: t =>
    match stripLitCI a s with
    | some (_, r) =>
      match digitRunLe 5 (r.dropWhile (fun c => isSpaceChar c)) with
      | some (digits, afterD) =>
        if bndAfter (lastD digits ' ') afterD then some (natOfDigits digits)
        else kwNumAltsGo s t
      | none => kwNumAltsGo s t
    | none => kwNumAltsGo s t

/-- Try `(?:KW)\s*(\d{1,5})` at a position: ordered keyword
alternatives, each with the digit continuation. -/
def tryKwNumAt (alts : List (List Char)) (prev : Option Char) (s : List Char) :
    Option Nat :=
  match s with
  | c :: _ =>
    if bndBefore prev c then kwNumAltsGo s alts
    else none
  | [] => none

/-- Generic search for `\b(?:KW)\s*(\d{1,5})\b`. -/
def searchKwNum (fuel : Nat) (alts : List (List Char)) (prev : Option Char)
    (s : List Char) : Option Nat :=
  match fuel, s with
  | 0, _ => none
  | _ + 1, [] => none
  | f + 1, c :: rest =>
    match tryKwNumAt alts prev (c :: rest) with
    | some n => some n
    | none => searchKwNum f alts (some c) rest

/-- Alternation worker for `RE_KORPUS_AND_DOOR =
\b(?:КОРПУС|KORPUS|CORPUS)\s*(\d{1,5})\s+(\d{1,5})\b`. -/
def korpusDoorAltsGo (s : List Char) : List (List Char) → Option (Nat × Nat)
  | [] => none
  | a :: t =>
    match stripLitCI a s with
    | some (_, r) =>
      match digitRunLe 5 (r.dropWhile (fun c => isSpaceChar c)) with
      | some (d1, after1) =>
        match manySpace1 after1 with
        | some after2 =>
          match digitRunLe 5 after2 with
          | some (d2, after3) =>
            if bndAfter (lastD d2 ' ') after3 then
              some (natOfDigits d1, natOfDigits d2)
            else korpusDoorAltsGo s t
          | none => korpusDoorAltsGo s t
        | none => korpusDoorAltsGo s t
      | none => korpusDoorAltsGo s t
    | none => korpusDoorAltsGo s t

/-- Try `RE_KORPUS_AND_DOOR` at a position. -/
def tryKorpusDoorAt (prev : Option Char) (s : List Char) : Option (Nat × Nat) :=
  match s with
  | c :: _ =>
    if bndBefore prev c then korpusDoorAltsGo s korpusAlts
    else none
  | [] => none

/-- Search for `RE_KORPUS_AND_DOOR`. -/
def searchKorpusDoor (fuel : Nat) (prev : Option Char) (s : List Char) :
    Option (Nat × Nat) :=
  match fuel, s with
  | 0, _ => none
  | _ + 1, [] => none
  | f + 1, c :: rest =>
    match tryKorpusDoorAt prev (c :: rest) with
    | some p => some p
    | none => searchKorpusDoor f (some c) rest

/-- Try `RE_BAIR_IMPLICIT_KORPUS_DOOR =
\b(\d{1,5})\s*(?:БАЙР|BAIR)\b\s+(\d{1,5})\s+(\d{1,5})\b` at a position. -/
def tryImpAt (prev : Option Char) (s : List Char) : Option (Nat × Nat × Nat) :=
  match s with
  | c :: _ =>
    if isDigitChar c && !(isWordO prev) then
      match digitRunLe 5 s with
      | some (d1, after1) =>
        match firstAltB bairAlts (after1.dropWhile (fun c => isSpaceChar c)) with
        | some (_, r) =>
          match manySpace1 r with
          | some after2 =>
            match digitRunLe 5 after2 with
            | some (d2, after3) =>
              match manySpace1 after3 with
              | some after4 =>
                match digitRunLe 5 after4 with
                | some (d3, after5) =>
                  if bndAfter (lastD d3 c) after5 then
                    some (natOfDigits d1, natOfDigits d2, natOfDigits d3)
                  else none
                | none => none
              | none => none
            | none => none
          | none => none
        | none => none
      | none => none
    else none
  | [] => none

/-- Search for `RE_BAIR_IMPLICIT_KORPUS_DOOR`. -/
def searchImp (fuel : Nat) (prev : Option Char) (s : List Char) :
    Option (Nat × Nat × Nat) :=
  match fuel, s with
  | 0, _ => none
  | _ + 1, [] => none
  | f + 1, c :: rest =>
    match tryImpAt prev (c :: rest) with
    | some p => some p
    | none => searchImp f (some c) rest

/-- Alternation worker for `RE_BAIR_IMPLICIT_KORPUS_DOOR_REV =
\b(?:БАЙР|BAIR)\s*(\d{1,5})\s+(\d{1,5})\s+(\d{1,5})\b`. -/
def impRevAltsGo (s : List Char) : List (List Char) → Option (Nat × Nat × Nat)
  | [] => none
  | a :: t =>
    match stripLitCI a s with
    | some (_, r) =>
      match digitRunLe 5 (r.dropWhile (fun c => isSpaceChar c)) with
      | some (d1, after1) =>
        match manySpace1 after1 with
        | some after2 =>
          match digitRunLe 5 after2 with
          | some (d2, after3) =>
            match manySpace1 after3 with
            | some after4 =>
              match digitRunLe 5 after4 with
              | some (d3, after5) =>
                if bndAfter (lastD d3 ' ') after5 then
                  some (natOfDigits d1, natOfDigits d2, natOfDigits d3)
                else impRevAltsGo s t
              | none => impRevAltsGo s t
            | none => impRevAltsGo s t
          | none => impRevAltsGo s t
        | none => impRevAltsGo s t
      | none => impRevAltsGo s t
    | none => impRevAltsGo s t

/-- Try `RE_BAIR_IMPLICIT_KORPUS_DOOR_REV` at a position. -/
def tryImpRevAt (prev : Option Char) (s : List Char) : Option (Nat × Nat × Nat) :=
  match s with
  | c :: _ =>
    if bndBefore prev c then impRevAltsGo s bairAlts
    else none
  | [] => none

/-- Search for `RE_BAIR_IMPLICIT_KORPUS_DOOR_REV`. -/
def searchImpRev (fuel : Nat) (prev : Option Char) (s : List Char) :
    Option (Nat × Nat × Nat) :=
  match fuel, s with
  | 0, _ => none
  | _ + 1, [] => none
  | f + 1, c :: rest =>
    match tryImpRevAt prev (c :: rest) with
    | some p => some p
    | none => searchImpRev f (some c) rest

/-- `re.findall(r"\b\d{1,5}\b", s)` as values (the keyword-mode trailing
number fallback). -/
def findAllNums (fuel : Nat) (prev : Option Char) (s : List Char) : List Nat :=
  match fuel, s with
  | 0, _ => []
  | _ + 1, [] => []
  | f + 1, c :: rest =>
    if isDigitChar c && !(isWordO prev) then
      match digitRunLe 5 (c :: rest) with
      | some (digits, afterD) =>
        if bndAfter (lastD digits c) afterD then
          natOfDigits digits :: findAllNums f (some (lastD digits c)) afterD
        else findAllNums f (some c) rest
      | none => findAllNums f (some c) rest
    else findAllNums f (some c) rest

/-! ## Fallback building patterns (`_find_building_block_fallback`) -/

/-- Leading digit run (`re.match(r"^(\d+)", s)`). -/
def leadingDigits (s : List Char) : Option (List Char) :=
  match s with
  | c :: rest =>
    if isDigitChar c then some (c :: rest.takeWhile (fun c => isDigitChar c))
    else none
  | [] => none

/-- First digit run anywhere (`re.search(r"\d+", s)`). -/
def firstDigitRun : List Char → Option (List Char)
  | [] => none
  | c :: rest =>
    if isDigitChar c then some (c :: rest.takeWhile (fun c => isDigitChar c))
    else firstDigitRun rest

/-- Group 3 of `RE_BAIR_KORPUS_XAALGA`, `([А-ЯӨҮЁA-Z]|\d{1,2})`, with its
continuation `\s+(\d{1,4})\b` (greedy two digits, backtracking to one):
returns (group-3 characters, group-4 value). -/
def korpusGroupCont (s : List Char) : Option (List Char × Nat) :=
  let cont : List Char → Option Nat := fun r =>
    match manySpace1 r with
    | some r2 =>
      match digitRunLe 4 r2 with
      | some (d4, after4) =>
        if bndAfter (lastD d4 ' ') after4 then some (natOfDigits d4) else none
      | none => none
    | none => none
  match s with
  | c :: rest =>
    if isUpperLetterClass c then
      match cont rest with
      | some x => some ([c], x)
      | none => none
    else if isDigitChar c then
      match rest with
      | c2 :: rest2 =>
        if isDigitChar c2 then
          match cont rest2 with
          | some x => some ([c, c2], x)
          | none =>
            match cont rest with
            | some x => some ([c], x)
            | none => none
        else
          match cont rest with
          | some x => some ([c], x)
          | none => none
      | [] => none
    else none
  | [] => none

/-- Try `RE_BAIR_KORPUS_XAALGA =
\b(\d{1,5})([SEP])([А-ЯӨҮЁA-Z]|\d{1,2})\s+(\d{1,4})\b` at a position. -/
def tryBKXAt (prev : Option Char) (s : List Char) : Option (Nat × List Char × Nat) :=
  match s with
  | c :: _ =>
    if isDigitChar c && !(isWordO prev) then
      match digitRunLe 5 s with
      | some (d1, after1) =>
        match after1 with
        | sep :: after2 =>
          if isSepChar sep then
            match korpusGroupCont after2 with
            | some (g3, x) => some (natOfDigits d1, g3, x)
            | none => none
          else none
        | [] => none
      | none => none
    else none
  | [] => none

/-- Search for `RE_BAIR_KORPUS_XAALGA`. -/
def searchBKX (fuel : Nat) (prev : Option Char) (s : List Char) :
    Option (Nat × List Char × Nat) :=
  match fuel, s with
  | 0, _ => none
  | _ + 1, [] => none
  | f + 1, c :: rest =>
    match tryBKXAt prev (c :: rest) with
    | some p => some p
    | none => searchBKX f (some c) rest

/-- Try `RE_BAIR_LETTER_XAALGA = \b(\d{1,5})([А-ЯӨҮЁA-Z])\s+(\d{1,4})\b`
at a position. -/
def tryBLXAt (prev : Option Char) (s : List Char) : Option (Nat × Char × Nat) :=
  match s with
  | c :: _ =>
    if isDigitChar c && !(isWordO prev) then
      match digitRunLe 5 s with
      | some (d1, after1) =>
        match after1 with
        | l :: after2 =>
          if isUpperLetterClass l then
            match manySpace1 after2 with
            | some after3 =>
              match digitRunLe 4 after3 with
              | some (d3, after4) =>
                if bndAfter (lastD d3 ' ') after4 then
                  some (natOfDigits d1, l, natOfDigits d3)
                else none
              | none => none
            | none => none
          else none
        | [] => none
      | none => none
    else none
  | [] => none

/-- Search for `RE_BAIR_LETTER_XAALGA`. -/
def searchBLX (fuel : Nat) (prev : Option Char) (s : List Char) :
    Option (Nat × Char × Nat) :=
  match fuel, s with
  | 0, _ => none
  | _ + 1, [] => none
  | f + 1, c :: rest =>
    match tryBLXAt prev (c :: rest) with
    | some p => some p
    | none => searchBLX f (some c) rest

/-- Try `RE_BAIR_XAALGA = \b(\d{1,5})\s+(\d{1,4})\s*(?:UNIT_WORD)?\b` at a
position.  After the second digit group the regex succeeds whenever the
next character is absent, non-word, or starts a unit keyword on a word
boundary (the optional keyword and the `\s*` backtracking never change the
two captured groups, which is all `search` is used for). -/
def tryBXAt (prev : Option Char) (s : List Char) : Option (Nat × Nat) :=
  match s with
  | c :: _ =>
    if isDigitChar c && !(isWordO prev) then
      match digitRunLe 5 s with
      | some (d1, after1) =>
        match manySpace1 after1 with
        | some after2 =>
          match digitRunLe 4 after2 with
          | some (d2, after3) =>
            match after3 with
            | [] => some (natOfDigits d1, natOfDigits d2)
            | a :: _ =>
              if !(isWordCharPy a) then some (natOfDigits d1, natOfDigits d2)
              else
                match firstAltB unitWordAlts after3 with
                | some _ => some (natOfDigits d1, natOfDigits d2)
                | none => none
          | none => none
        | none => none
      | none => none
    else none
  | [] => none

/-- Search for `RE_BAIR_XAALGA`. -/
def searchBX (fuel : Nat) (prev : Option Char) (s : List Char) :
    Option (Nat × Nat) :=
  match fuel, s with
  | 0, _ => none
  | _ + 1, [] => none
  | f + 1, c :: rest =>
    match tryBXAt prev (c :: rest) with
    | some p => some p
    | none => searchBX f (some c) rest

/-- Alternation worker for the first branch of `RE_XAALGA_ONLY`,
`\b(?:UNIT_WORD)\b\s*(\d{1,4})\b`: first keyword alternative that sits on
a word boundary and whose digit continuation matches. -/
def xaalgaKwNumGo (s : List Char) : List (List Char) → Option Nat
  | [] => none
  | a :: t =>
    match stripLitCI a s with
    | some (m, r) =>
      if bndAfter (lastD m ' ') r then
        match digitRunLe 4 (r.dropWhile (fun c => isSpaceChar c)) with
        | some (digits, afterD) =>
          if bndAfter (lastD digits ' ') afterD then some (natOfDigits digits)
          else xaalgaKwNumGo s t
        | none => xaalgaKwNumGo s t
      else xaalgaKwNumGo s t
    | none => xaalgaKwNumGo s t

/-- Try `RE_XAALGA_ONLY =
(?:\b(?:UNIT_WORD)\b\s*(\d{1,4})\b|\b(\d{1,4})\s*(?:UNIT_WORD)\b)` at a
position (first alternative, then the second). -/
def tryXOnlyAt (prev : Option Char) (s : List Char) : Option Nat :=
  match s with
  | c :: _ =>
    let alt1 : Option Nat :=
      if bndBefore prev c then xaalgaKwNumGo s unitWordAlts else none
    match alt1 with
    | some n => some n
    | none =>
      if isDigitChar c && !(isWordO prev) then
        match digitRunLe 4 s with
        | some (digits, afterD) =>
          match firstAltB unitWordAlts (afterD.dropWhile (fun c => isSpaceChar c)) with
          | some _ => some (natOfDigits digits)
          | none => none
        | none => none
      else none
  | [] => none

/-- Search for `RE_XAALGA_ONLY`. -/
def searchXOnly (fuel : Nat) (prev : Option Char) (s : List Char) : Option Nat :=
  match fuel, s with
  | 0, _ => none
  | _ + 1, [] => none
  | f + 1, c :: rest =>
    match tryXOnlyAt prev (c :: rest) with
    | some n => some n
    | none => searchXOnly f (some c) rest

/-! ## Assembling the building resolver and `parse_with_rules` -/

/-- The four mutable extraction variables of `parse_with_rules`. -/
structure BKX where
  bair : Nat
  korpus : List Char
  xaalga : Nat
  pattern : String
  deriving Repr, DecidableEq

/-- `_korpus_clean` (lines 150–152). -/
def korpus_clean (rem : List Char) : List Char :=
  let k := rem.filter (fun c => isKorpusChar c)
  if k = [] then lc "0" else k

/-- `_find_building_block_fallback` (lines 250–274). -/
def find_building_block_fallback (cu : List Char) : BKX :=
  let fuel := cu.length + 1
  match searchBKX fuel none cu with
  | some (b, g3, x) => ⟨b, korpus_clean g3, x, "bair.korpus xaalga"⟩
  | none =>
    match searchBLX fuel none cu with
    | some (b, l, x) => ⟨b, korpus_clean [l], x, "bair+letter xaalga"⟩
    | none =>
      match searchBX fuel none cu with
      | some (b, x) => ⟨b, lc "0", x, "bair xaalga"⟩
      | none =>
        match searchXOnly fuel none cu with
        | some x => ⟨0, lc "0", x, "xaalga only"⟩
        | none => ⟨0, lc "0", 0, "none"⟩

/-- Non-empty whitespace-separated chunks (`str.split()`). -/
def splitWSAux (acc : List Char) : List Char → List (List Char)
  | [] => if acc = [] then [] else [acc.reverse]
  | c :: rest =>
    if isSpaceChar c then
      if acc = [] then splitWSAux [] rest
      else acc.reverse :: splitWSAux [] rest
    else splitWSAux (c :: acc) rest

/-- `content_u.split()`. -/
def splitWS (s : List Char) : List (List Char) :=
  splitWSAux [] s

/-- `b.strip(" ,.;")`. -/
def stripPunct (s : List Char) : List Char :=
  let p : Char → Bool := fun c => c = ' ' || c = ',' || c = '.' || c = ';'
  ((s.dropWhile p).reverse.dropWhile p).reverse

/-- The numeric blocks of the residual text (lines 394–395): chunks that
contain a digit, stripped of `" ,.;"`, non-empty ones kept. -/
def numericBlocks (cu : List Char) : List (List Char) :=
  let rawBlocks :=
    (splitWS cu).filterMap fun b =>
      if b.any (fun c => isDigitChar c) then some (stripPunct b) else none
  rawBlocks.filter (fun b => b ≠ [])

/-- `RE_BAIR_XAALGA_TOKEN.match = ^\s*(\d{1,5})\s*[-./]\s*(\d{1,4})\s*$`. -/
def bairXaalgaToken (s : List Char) : Option (Nat × Nat) :=
  match digitRunLe 5 (s.dropWhile (fun c => isSpaceChar c)) with
  | some (d1, r1) =>
    match r1.dropWhile (fun c => isSpaceChar c) with
    | sep :: r2 =>
      if isDashDotSlash sep then
        match digitRunLe 4 (r2.dropWhile (fun c => isSpaceChar c)) with
        | some (d2, r3) =>
          if r3.dropWhile (fun c => isSpaceChar c) = [] then
            some (natOfDigits d1, natOfDigits d2)
          else none
        | none => none
      else none
    | [] => none
  | none => none

/-- The block-based rules of lines 393–424 (run when no keyword rule
matched), starting from the state `st0` left by the implicit-triple
match. -/
def blocksPath (horooid : Nat) (cu : List Char) (st0 : BKX) : BKX :=
  let blocks := numericBlocks cu
  let st1 :=
    if 0 < horooid ∧ blocks.length = 1 then
      match blocks with
      | [b] =>
        match bairXaalgaToken b with
        | some (n, m) => ⟨n, lc "0", m, "bair-xaalga-no-korpus"⟩
        | none => st0
      | _ => st0
    else st0
  let st2 :=
    if st1.pattern = "none" ∧ 2 ≤ blocks.length then
      match blocks.head?, blocks.getLast? with
      | some first, some last =>
        match leadingDigits first with
        | some run =>
          let bair := natOfDigits run
          let rem := first.drop (natRepr bair).length
          match firstDigitRun last with
          | some xrun =>
            ⟨bair, korpus_clean rem, natOfDigits xrun, "strict_content_blocks"⟩
          | none => st1
        | none => st1
      | _, _ => st1
    else st1
  if st2.pattern = "none" then find_building_block_fallback cu else st2

/-- The keyword cascade and block rules of lines 319–424: from the
residual text to the four extraction variables. -/
def buildingStage (horooid : Nat) (cu : List Char) : BKX :=
  let fuel := cu.length + 1
  let m_imp :=
    match searchImp fuel none cu with
    | some p => some p
    | none => searchImpRev fuel none cu
  let st0 : BKX :=
    match m_imp with
    | some (b, k, x) => ⟨b, natRepr k, x, "keyword_bair_implicit_korpus_door"⟩
    | none => ⟨0, lc "0", 0, "none"⟩
  let m_bair :=
    match searchNumKw fuel bairAlts none cu with
    | some n => some n
    | none => searchKwNum fuel bairAlts none cu
  let m_korp_door := searchKorpusDoor fuel none cu
  let m_korpus :=
    match m_korp_door with
    | some (k, _) => some k
    | none =>
      match searchNumKw fuel korpusAlts none cu with
      | some n => some n
      | none => searchKwNum fuel korpusAlts none cu
  let door_after_korpus :=
    match m_korp_door with
    | some (_, d) => d
    | none => 0
  let m_toot :=
    match searchNumKw fuel unitWordAlts none cu with
    | some n => some n
    | none => searchKwNum fuel unitWordAlts none cu
  match m_bair with
  | some b =>
    if m_korpus.isSome || m_toot.isSome then
      let korpus :=
        match m_korpus with
        | some k => natRepr k
        | none => lc "0"
      let xaalga :=
        match m_toot with
        | some t => t
        | none =>
          if 0 < door_after_korpus then door_after_korpus
          else
            let nums := findAllNums fuel none cu
            let cand := nums.getLastD 0
            if cand ≠ 0 ∧ cand ≠ b ∧ natRepr cand ≠ korpus then cand else 0
      ⟨b, korpus, xaalga, "keyword_bair_korpus_toot"⟩
    else blocksPath horooid cu st0
  | none =>
    match m_korp_door with
    | some (k, d) => ⟨0, natRepr k, d, "keyword_korpus_door"⟩
    | none => blocksPath horooid cu st0

/-- `_clamp_ranges` (lines 154–165): out-of-range fields reset to 0 with a
warning, in the order horoo → bair → xaalga. -/
def clamp_ranges (horoo bair xaalga : Nat) : Nat × Nat × Nat × List String :=
  let (h, w1) :=
    if horoo ≠ 0 ∧ ¬(1 ≤ horoo ∧ horoo ≤ 99) then (0, ["horoo_out_of_range"])
    else (horoo, [])
  let (b, w2) :=
    if bair ≠ 0 ∧ ¬(1 ≤ bair ∧ bair ≤ 99999) then (0, ["bair_out_of_range"])
    else (bair, [])
  let (x, w3) :=
    if xaalga ≠ 0 ∧ ¬(1 ≤ xaalga ∧ xaalga ≤ 99999) then (0, ["xaalga_out_of_range"])
    else (xaalga, [])
  (h, b, x, w1 ++ w2 ++ w3)

/-- The confidence constants, as kernel-computable rationals in lowest
terms: `0.98`, `0.99`, `0.97`, `0.30`, `0.70`, `0.0`. -/
def q98 : ℚ := ⟨49, 50, by norm_num, by norm_num⟩

/-- `0.99`. -/
def q99 : ℚ := ⟨99, 100, by norm_num, by norm_num⟩

/-- `0.97`. -/
def q97 : ℚ := ⟨97, 100, by norm_num, by norm_num⟩

/-- `0.30`. -/
def q30 : ℚ := ⟨3, 10, by norm_num, by norm_num⟩

/-- `0.70`. -/
def q70 : ℚ := ⟨7, 10, by norm_num, by norm_num⟩

/-- `0.0`. -/
def q0 : ℚ := ⟨0, 1, by norm_num, by norm_num⟩

/-- The confidence table of lines 430–445: from the post-clamp fields and
the matched pattern to the confidence and the appended warning. -/
def confOf (bair xaalga : Nat) (pattern : String) : ℚ × List String :=
  if 0 < bair ∧ 0 < xaalga then
    (if pattern = "keyword_bair_korpus_toot" then q99
     else if pattern = "bair-xaalga-no-korpus" then q97
     else q98, [])
  else if pattern = "xaalga only" ∧ 0 < xaalga then (q30, ["partial_only_xaalga"])
  else if pattern = "keyword_korpus_door" ∧ 0 < xaalga then (q70, ["partial_no_bair"])
  else (q0, ["not_enough_info"])

/-- The result dictionary of `parse_with_rules`. -/
structure ParseResult where
  SUMNAME_PRED : List Char
  HOROOID_PRED : Nat
  BAIR_PRED : Nat
  KORPUS_PRED : List Char
  XAALGA_PRED : Nat
  CONFIDENCE : ℚ
  MATCHED_PATTERN : String
  RULES_VERSION : String
  NORMALIZED : List Char
  WARNINGS : List String
  deriving Repr, DecidableEq

/-- Lines 426–458: clamp, score and assemble the result. -/
def finalizeResult (sumname : List Char) (horooid : Nat) (bk : BKX)
    (norm : List Char) : ParseResult :=
  let c := clamp_ranges horooid bk.bair bk.xaalga
  let h2 := c.1
  let b2 := c.2.1
  let x2 := c.2.2.1
  let warns := c.2.2.2
  let cw := confOf b2 x2 bk.pattern
  { SUMNAME_PRED := sumname
    HOROOID_PRED := h2
    BAIR_PRED := b2
    KORPUS_PRED := if bk.korpus = [] then lc "0" else bk.korpus
    XAALGA_PRED := x2
    CONFIDENCE := cw.1
    MATCHED_PATTERN := bk.pattern
    RULES_VERSION := "2026-02-10.4"
    NORMALIZED := norm
    WARNINGS := warns ++ cw.2 }

/-- `parse_with_rules` (lines 280–458). -/
def parse_with_rules (text : List Char) : ParseResult :=
  let norm := normalize_address text
  let sumname :=
    match find_district norm with
    | some c => c
    | none => []
  let horooid := find_horoo norm sumname
  let cu := stripContent norm sumname horooid
  let bk := buildingStage horooid cu
  finalizeResult sumname horooid bk norm

/-! ## The HTTP layer (`app/main.py`) -/

/-- The response model of `app/schemas.py`. -/
structure ParseResponse where
  sumname : List Char
  horooid : Nat
  bair : Nat
  korpus : List Char
  xaalga : Nat
  confidence : ℚ
  matched_pattern : String
  normalized : List Char
  deriving Repr, DecidableEq

/-- The `/parse` endpoint (lines 11–26 of `app/main.py`): strips the raw
text, normalizes it, feeds the normalized form to the engine, and reports
the engine output with `or`-defaults. -/
def endpointParse (raw : List Char) : ParseResponse :=
  let raw' := stripWS raw
  let norm := normalize_address raw'
  let r := parse_with_rules norm
  { sumname := r.SUMNAME_PRED
    horooid := r.HOROOID_PRED
    bair := r.BAIR_PRED
    korpus := if r.KORPUS_PRED = [] then lc "0" else r.KORPUS_PRED
    xaalga := r.XAALGA_PRED
    confidence := r.CONFIDENCE
    matched_pattern := if r.MATCHED_PATTERN = "" then "none" else r.MATCHED_PATTERN
    normalized := norm }

/-! ## Derived predicates used by the statements -/

/-- The well-formedness predicate of the claimed block invariant:
`"0"` or non-empty and purely alphanumeric. -/
def korpusOK (k : List Char) : Prop :=
  k = lc "0" ∨ (k ≠ [] ∧ k.all (fun c => isKorpusChar c) = true)

/-- Whether one of the two keyword branches of lines 357–388 fires
(`keyword_matched` ends up `True`): the bair keyword together with a
korpus or unit keyword, or the korpus+door pattern without a bair
keyword. -/
def keywordMatched (cu : List Char) : Bool :=
  let fuel := cu.length + 1
  let m_bair :=
    match searchNumKw fuel bairAlts none cu with
    | some n => some n
    | none => searchKwNum fuel bairAlts none cu
  let m_korp_door := searchKorpusDoor fuel none cu
  let m_korpus :=
    match m_korp_door with
    | some (k, _) => some k
    | none =>
      match searchNumKw fuel korpusAlts none cu with
      | some n => some n
      | none => searchKwNum fuel korpusAlts none cu
  let m_toot :=
    match searchNumKw fuel unitWordAlts none cu with
    | some n => some n
    | none => searchKwNum fuel unitWordAlts none cu
  (m_bair.isSome && (m_korpus.isSome || m_toot.isSome)) ||
    (!m_bair.isSome && m_korp_door.isSome)

/-- The district string bound by `parse_with_rules` (`sumname`). -/
def sumnameOf (text : List Char) : List Char :=
  match find_district (normalize_address text) with
  | some c => c
  | none => []

/-- The horoo id bound by `parse_with_rules` (`horooid`). -/
def horooOf (text : List Char) : Nat :=
  find_horoo (normalize_address text) (sumnameOf text)

/-- The residual text bound by `parse_with_rules` (`content_u`). -/
def contentOf (text : List Char) : List Char :=
  stripContent (normalize_address text) (sumnameOf text) (horooOf text)

/-- The state left by the implicit-triple match of lines 332–338 (the
values later visible to the block rules, since `keyword_matched` is reset
at line 355). -/
def impState (cu : List Char) : BKX :=
  let fuel := cu.length + 1
  match (match searchImp fuel none cu with
         | some p => some p
         | none => searchImpRev fuel none cu) with
  | some (b, k, x) => ⟨b, natRepr k, x, "keyword_bair_implicit_korpus_door"⟩
  | none => ⟨0, lc "0", 0, "none"⟩

/-- Spec-side reading of the first look-ahead guard of the bare
horoo-digit eraser (amended to the separators the code actually uses):
the text begins, possibly after whitespace, with one of `- . /`,
followed, possibly after whitespace, by a digit. -/
def followedBySepDigit (s : List Char) : Prop :=
  ∃ sp1 c sp2 d rest, s = sp1 ++ c :: (sp2 ++ d :: rest) ∧
    (∀ x ∈ sp1, isSpaceChar x = true) ∧ isDashDotSlash c = true ∧
    (∀ x ∈ sp2, isSpaceChar x = true) ∧ isDigitChar d = true

/-- Spec-side reading of the second look-ahead guard of the bare
horoo-digit eraser: the text begins, possibly after whitespace, with a
building/block/unit keyword that ends on a word boundary. -/
def followedByKeyword (s : List Char) : Prop :=
  ∃ sp m rest, s = sp ++ m ++ rest ∧
    (∀ x ∈ sp, isSpaceChar x = true) ∧ m ≠ [] ∧
    (∃ a ∈ bareLaKwAlts, m.map upperChar = a) ∧
    bndAfter (lastD m ' ') rest = true

/-! ## Theorems -/

set_option maxRecDepth 100000

theorem q99_val : q99 = 99 / 100 := by
  rw [q99, Rat.mk'_eq_divInt]; norm_num [Rat.divInt_eq_div]

theorem q98_val : q98 = 98 / 100 := by
  rw [q98, Rat.mk'_eq_divInt]; norm_num [Rat.divInt_eq_div]

theorem q97_val : q97 = 97 / 100 := by
  rw [q97, Rat.mk'_eq_divInt]; norm_num [Rat.divInt_eq_div]

theorem q30_val : q30 = 30 / 100 := by
  rw [q30, Rat.mk'_eq_divInt]; norm_num [Rat.divInt_eq_div]

theorem q70_val : q70 = 70 / 100 := by
  rw [q70, Rat.mk'_eq_divInt]; norm_num [Rat.divInt_eq_div]

theorem q0_val : q0 = 0 := by
  rw [q0, Rat.mk'_eq_divInt]; norm_num

theorem lastD_irrel (cs : List Char) : ∀ (c : Char) (d d' : Char),
    lastD (c :: cs) d = lastD (c :: cs) d' := by
  induction cs with
  | nil => intro c d d'; rfl
  | cons c2 t ih => intro c d d'; exact ih c2 d d'

theorem stripLitCI_append (a : List Char) : ∀ (m r : List Char),
    m.map upperChar = a → stripLitCI a (m ++ r) = some (m, r) := by
  induction a with
  | nil =>
    intro m r hmap
    rw [List.map_eq_nil_iff] at hmap
    subst hmap
    rfl
  | cons l ls ih =>
    intro m r hmap
    cases m with
    | nil => cases hmap
    | cons c cs =>
      simp only [List.map_cons, List.cons.injEq] at hmap
      simp only [List.cons_append, stripLitCI, hmap.1, if_pos, List.append_eq,
        ih cs r hmap.2]

theorem stripLitCI_spec (a : List Char) : ∀ (t m r : List Char),
    stripLitCI a t = some (m, r) → t = m ++ r ∧ m.map upperChar = a := by
  induction a with
  | nil =>
    intro t m r h
    simp only [stripLitCI, Option.some.injEq, Prod.mk.injEq] at h
    obtain ⟨h1, h2⟩ := h
    subst h1; subst h2
    exact ⟨rfl, rfl⟩
  | cons l ls ih =>
    intro t m r h
    cases t with
    | nil => cases h
    | cons c cs =>
      simp only [stripLitCI] at h
      by_cases hc : upperChar c = l
      · rw [if_pos hc] at h
        cases hrec : stripLitCI ls cs with
        | none => rw [hrec] at h; cases h
        | some p =>
          obtain ⟨m', r'⟩ := p
          rw [hrec] at h
          simp only [Option.some.injEq, Prod.mk.injEq] at h
          obtain ⟨h1, h2⟩ := h
          subst h1; subst h2
          obtain ⟨e1, e2⟩ := ih cs m' r' hrec
          constructor
          · rw [List.cons_append, ← e1]
          · simp only [List.map_cons, hc, e2]
      · rw [if_neg hc] at h; cases h

theorem dropWhile_append_of_all (p : Char → Bool) (l t : List Char)
    (hl : ∀ x ∈ l, p x = true) :
    List.dropWhile p (l ++ t) = List.dropWhile p t := by
  induction l with
  | nil => rfl
  | cons c cs ih =>
    rw [List.cons_append, List.dropWhile_cons_of_pos (hl c (by simp))]
    exact ih fun x hx => hl x (by simp [hx])

theorem space_toNat {c : Char} (h : isSpaceChar c = true) : c.toNat ≤ 32 := by
  simp only [isSpaceChar, Bool.or_eq_true, decide_eq_true_eq] at h
  rcases h with ((((h | h) | h) | h) | h) | h <;> subst h <;> decide

theorem sep_toNat {c : Char} (h : isDashDotSlash c = true) :
    45 ≤ c.toNat ∧ c.toNat ≤ 47 := by
  simp only [isDashDotSlash, Bool.or_eq_true, decide_eq_true_eq] at h
  rcases h with (h | h) | h <;> subst h <;> decide

theorem sep_not_space {c : Char} (h : isDashDotSlash c = true) :
    isSpaceChar c = false := by
  rw [Bool.eq_false_iff]
  intro hs
  have h1 := space_toNat hs
  have h2 := sep_toNat h
  omega

theorem digit_not_space {c : Char} (h : isDigitChar c = true) :
    isSpaceChar c = false := by
  simp only [isDigitChar, Bool.and_eq_true, decide_eq_true_eq] at h
  rw [Bool.eq_false_iff]
  intro hs
  have h1 := space_toNat hs
  omega

theorem digit_word {c : Char} (h : isDigitChar c = true) :
    isWordCharPy c = true := by
  simp only [isDigitChar, Bool.and_eq_true, decide_eq_true_eq] at h
  simp only [isWordCharPy, Bool.or_eq_true, Bool.and_eq_true, decide_eq_true_eq]
  omega

theorem digit_upper {c : Char} (h : isDigitChar c = true) :
    upperChar c = c := by
  simp only [isDigitChar, Bool.and_eq_true, decide_eq_true_eq] at h
  simp only [upperChar]
  rw [if_neg (by simp only [Bool.and_eq_true, decide_eq_true_eq]; omega),
    if_neg (by simp only [Bool.and_eq_true, decide_eq_true_eq]; omega),
    if_neg (by omega), if_neg (by omega), if_neg (by omega)]

theorem laSepDigit_iff (s : List Char) :
    laSepDigit s = true ↔ followedBySepDigit s := by
  constructor
  · intro h
    simp only [laSepDigit] at h
    cases h1 : List.dropWhile (fun c => isSpaceChar c) s with
    | nil => rw [h1] at h; cases h
    | cons c rest =>
      rw [h1] at h
      dsimp only at h
      by_cases hc : isDashDotSlash c = true
      · rw [if_pos hc] at h
        cases h2 : List.dropWhile (fun c => isSpaceChar c) rest with
        | nil => rw [h2] at h; cases h
        | cons d rest2 =>
          rw [h2] at h
          dsimp only at h
          refine ⟨s.takeWhile (fun c => isSpaceChar c), c,
            rest.takeWhile (fun c => isSpaceChar c), d, rest2, ?_, ?_, hc, ?_, h⟩
          · conv_lhs => rw [← List.takeWhile_append_dropWhile
              (p := fun c => isSpaceChar c) (l := s)]
            rw [h1]
            simp only [List.append_cancel_left_eq, List.cons.injEq, true_and]
            conv_lhs => rw [← List.takeWhile_append_dropWhile
              (p := fun c => isSpaceChar c) (l := rest)]
            rw [h2]
          · exact fun x hx => List.mem_takeWhile_imp hx
          · exact fun x hx => List.mem_takeWhile_imp hx
      · rw [if_neg hc] at h; cases h
  · rintro ⟨sp1, c, sp2, d, rest, rfl, hsp1, hc, hsp2, hd⟩
    simp only [laSepDigit]
    rw [dropWhile_append_of_all _ sp1 _ hsp1,
      List.dropWhile_cons_of_neg (by rw [sep_not_space hc]; exact Bool.false_ne_true)]
    dsimp only
    rw [if_pos hc, dropWhile_append_of_all _ sp2 _ hsp2,
      List.dropWhile_cons_of_neg (by rw [digit_not_space hd]; exact Bool.false_ne_true)]
    exact hd

theorem firstAltB_isSome_iff (alts : List (List Char)) (t : List Char) :
    (firstAltB alts t).isSome = true ↔
      ∃ a ∈ alts, ∃ m r, t = m ++ r ∧ m.map upperChar = a ∧ m ≠ [] ∧
        bndAfter (lastD m ' ') r = true := by
  induction alts with
  | nil => simp [firstAltB]
  | cons a rest ih =>
    simp only [firstAltB]
    cases hstrip : stripLitCI a t with
    | none =>
      dsimp only
      rw [ih]
      constructor
      · rintro ⟨a', ha', w⟩
        exact ⟨a', by simp [ha'], w⟩
      · rintro ⟨a', ha', m, r, h1, h2, h3, h4⟩
        rcases List.mem_cons.mp ha' with rfl | ha'
        · exact absurd (h1 ▸ stripLitCI_append a' m r h2)
            (by rw [hstrip]; exact fun h => Option.noConfusion h)
        · exact ⟨a', ha', m, r, h1, h2, h3, h4⟩
    | some p =>
      obtain ⟨m, r⟩ := p
      have hdec := stripLitCI_spec a t m r hstrip
      cases m with
      | nil =>
        dsimp only
        rw [ih]
        constructor
        · rintro ⟨a', ha', w⟩
          exact ⟨a', by simp [ha'], w⟩
        · rintro ⟨a', ha', m', r', h1, h2, h3, h4⟩
          rcases List.mem_cons.mp ha' with rfl | ha'
          · have hsome := h1 ▸ stripLitCI_append a' m' r' h2
            rw [hstrip] at hsome
            simp only [Option.some.injEq, Prod.mk.injEq] at hsome
            exact absurd hsome.1.symm h3
          · exact ⟨a', ha', m', r', h1, h2, h3, h4⟩
      | cons c cs =>
        dsimp only
        by_cases hbnd : bndAfter (lastD (c :: cs) c) r = true
        · rw [if_pos hbnd]
          simp only [Option.isSome_some, true_iff]
          exact ⟨a, by simp, c :: cs, r, hdec.1, hdec.2, by simp,
            by rw [lastD_irrel cs c ' ' c]; exact hbnd⟩
        · rw [if_neg hbnd, ih]
          constructor
          · rintro ⟨a', ha', w⟩
            exact ⟨a', by simp [ha'], w⟩
          · rintro ⟨a', ha', m', r', h1, h2, h3, h4⟩
            rcases List.mem_cons.mp ha' with rfl | ha'
            · have hsome := h1 ▸ stripLitCI_append a' m' r' h2
              rw [hstrip] at hsome
              simp only [Option.some.injEq, Prod.mk.injEq] at hsome
              exfalso
              apply hbnd
              rw [lastD_irrel cs c c ' ']
              rw [← hsome.1, ← hsome.2] at h4
              exact h4
            · exact ⟨a', ha', m', r', h1, h2, h3, h4⟩

theorem space_upper {c : Char} (h : isSpaceChar c = true) : upperChar c = c := by
  simp only [isSpaceChar, Bool.or_eq_true, decide_eq_true_eq] at h
  rcases h with ((((h | h) | h) | h) | h) | h <;> subst h <;> decide

theorem kwAlts_not_space : ∀ a ∈ bareLaKwAlts, ∀ x ∈ a, isSpaceChar x = false := by
  decide

theorem laKeyword_iff (s : List Char) :
    laKeyword s = true ↔ followedByKeyword s := by
  have hiff := firstAltB_isSome_iff bareLaKwAlts
    (s.dropWhile (fun c => isSpaceChar c))
  constructor
  · intro h
    simp only [laKeyword] at h
    have hsome : (firstAltB bareLaKwAlts
        (s.dropWhile (fun c => isSpaceChar c))).isSome = true := by
      cases hf : firstAltB bareLaKwAlts (s.dropWhile (fun c => isSpaceChar c)) with
      | none => rw [hf] at h; cases h
      | some p => simp
    obtain ⟨a, ha, m, r, h1, h2, h3, h4⟩ := hiff.mp hsome
    refine ⟨s.takeWhile (fun c => isSpaceChar c), m, r, ?_,
      fun x hx => List.mem_takeWhile_imp hx, h3, ⟨a, ha, h2⟩, h4⟩
    conv_lhs => rw [← List.takeWhile_append_dropWhile
        (p := fun c => isSpaceChar c) (l := s)]
    rw [h1, List.append_assoc]
  · rintro ⟨sp, m, rest, rfl, hsp, hm, ⟨a, ha, hmap⟩, hbnd⟩
    simp only [laKeyword]
    have hhead : ∀ c cs, m = c :: cs → isSpaceChar c = false := by
      intro c cs hmeq
      subst hmeq
      simp only [List.map_cons] at hmap
      have hupper : isSpaceChar (upperChar c) = false := by
        cases a with
        | nil => cases hmap
        | cons a0 as =>
          obtain ⟨e1, _⟩ := List.cons.injEq .. ▸ hmap
          rw [e1]
          exact kwAlts_not_space _ ha a0 (by simp)
      by_cases hsc : isSpaceChar c = true
      · rw [space_upper hsc] at hupper
        rw [hsc] at hupper
        cases hupper
      · exact Bool.eq_false_iff.mpr hsc
    have hdrop : List.dropWhile (fun c => isSpaceChar c) (sp ++ m ++ rest) =
        m ++ rest := by
      rw [List.append_assoc, dropWhile_append_of_all _ sp _ hsp]
      cases m with
      | nil => exact absurd rfl hm
      | cons c cs =>
        rw [List.cons_append, List.dropWhile_cons_of_neg]
        rw [hhead c cs rfl]
        exact Bool.false_ne_true
    rw [hdrop]
    have hsome : (firstAltB bareLaKwAlts (m ++ rest)).isSome = true := by
      rw [firstAltB_isSome_iff]
      exact ⟨a, ha, m, rest, rfl, hmap, hm, hbnd⟩
    cases hf : firstAltB bareLaKwAlts (m ++ rest) with
    | none => rw [hf] at hsome; cases hsome
    | some p => rfl

theorem confOf_bounds_iff (b x : Nat) (p : String) :
    (0 ≤ (confOf b x p).1 ∧ (confOf b x p).1 ≤ 1) ∧
    ((confOf b x p).1 = 0 ↔
      ¬(0 < b ∧ 0 < x) ∧ ¬(p = "xaalga only" ∧ 0 < x) ∧
      ¬(p = "keyword_korpus_door" ∧ 0 < x)) := by
  unfold confOf
  split_ifs <;>
    simp_all [q99_val, q97_val, q98_val, q30_val, q70_val, q0_val] <;>
    norm_num

theorem clamp_ranges_bounds (h b x : Nat) :
    ((clamp_ranges h b x).1 = 0 ∨
      1 ≤ (clamp_ranges h b x).1 ∧ (clamp_ranges h b x).1 ≤ 99) ∧
    ((clamp_ranges h b x).2.1 = 0 ∨
      1 ≤ (clamp_ranges h b x).2.1 ∧ (clamp_ranges h b x).2.1 ≤ 99999) ∧
    ((clamp_ranges h b x).2.2.1 = 0 ∨
      1 ≤ (clamp_ranges h b x).2.2.1 ∧ (clamp_ranges h b x).2.2.1 ≤ 99999) := by
  unfold clamp_ranges
  split_ifs <;> simp_all <;> omega

theorem isKorpusChar_of_digit {c : Char} (h : isDigitChar c = true) :
    isKorpusChar c = true := by
  simp only [isDigitChar, Bool.and_eq_true, decide_eq_true_eq] at h
  simp only [isKorpusChar, Bool.or_eq_true, Bool.and_eq_true, decide_eq_true_eq]
  omega

theorem natReprAux_all_digits (f : Nat) :
    ∀ n, (natReprAux f n).all (fun c => isDigitChar c) = true := by
  induction f with
  | zero => intro n; rfl
  | succ f ih =>
    intro n
    unfold natReprAux
    split
    · rfl
    · rw [List.all_append, ih, Bool.true_and]
      have hlt : n % 10 < 10 := Nat.mod_lt _ (by norm_num)
      simp only [List.all_cons, List.all_nil, Bool.and_true]
      set k := n % 10 with hk
      interval_cases k <;> decide

theorem natRepr_ne_nil (n : Nat) : natRepr n ≠ [] := by
  unfold natRepr
  split
  · decide
  · next hn =>
    cases n with
    | zero => exact absurd rfl hn
    | succ m =>
      unfold natReprAux
      simp

theorem natRepr_all_digits (n : Nat) :
    (natRepr n).all (fun c => isDigitChar c) = true := by
  unfold natRepr
  split
  · decide
  · exact natReprAux_all_digits n n

theorem map_upper_digits (l : List Char)
    (hall : l.all (fun c => isDigitChar c) = true) : l.map upperChar = l := by
  induction l with
  | nil => rfl
  | cons c cs ih =>
    rw [List.all_cons, Bool.and_eq_true] at hall
    rw [List.map_cons, digit_upper hall.1, ih hall.2]

/-- C4 (amended): for a positive horoo number, the bare-digit eraser of the
Content Stripper erases an occurrence of the horoo digits — one that is
not preceded by a digit, sits on word boundaries on both sides — exactly
when the rest of the text does NOT continue (after optional whitespace)
with one of the separators `- . /` followed (after optional whitespace) by
a digit, and does NOT continue (after optional whitespace) with a
building/block/unit keyword ending on a word boundary. -/
theorem C4_bare_erase_guard (h : Nat) (prev : Option Char) (r : List Char)
    (hpos : 0 < h) :
    (tryBareHorooAt (natRepr h) prev (natRepr h ++ r)).isSome = true ↔
      ((∀ p, prev = some p → isDigitChar p = false) ∧ isWordO prev = false ∧
        bndAfter (lastD (natRepr h) ' ') r = true ∧
        ¬ followedBySepDigit r ∧ ¬ followedByKeyword r) := by
  have hne := natRepr_ne_nil h
  have halldig := natRepr_all_digits h
  cases hrepr : natRepr h with
  | nil => exact absurd hrepr hne
  | cons d0 ds =>
    rw [hrepr] at halldig
    have hd0 : isDigitChar d0 = true := by
      rw [List.all_cons, Bool.and_eq_true] at halldig
      exact halldig.1
    have hmap : (d0 :: ds).map upperChar = d0 :: ds := map_upper_digits _ halldig
    have hstrip : stripLitCI (d0 :: ds) (d0 :: (ds ++ r)) = some (d0 :: ds, r) := by
      rw [← List.cons_append]
      exact stripLitCI_append _ _ _ hmap
    rw [List.cons_append]
    simp only [tryBareHorooAt]
    rw [hstrip]
    have eqP : ((match prev with
        | some p => !(isDigitChar p)
        | none => true) = true) ↔ (∀ p, prev = some p → isDigitChar p = false) := by
      cases prev with
      | none => simp
      | some p => simp
    have eqW : (bndBefore prev d0 = true) ↔ (isWordO prev = false) := by
      simp only [bndBefore, digit_word hd0]
      cases hw : isWordO prev <;> simp
    have eqU : decide (upperChar d0 = d0) = true := by
      simp [digit_upper hd0]
    constructor
    · intro hsome
      split at hsome
      · next hA =>
        dsimp only at hsome
        split at hsome
        · next hB =>
          rw [Bool.and_eq_true, Bool.and_eq_true] at hA hB
          refine ⟨eqP.mp hA.1.1, eqW.mp hA.1.2, ?_, ?_, ?_⟩
          · rw [lastD_irrel ds d0 ' ' d0]
            exact hB.1.1
          · rw [← laSepDigit_iff]
            intro hc
            rw [hc] at hB
            exact absurd hB.1.2 (by decide)
          · rw [← laKeyword_iff]
            intro hc
            rw [hc] at hB
            exact absurd hB.2 (by decide)
        · simp at hsome
      · simp at hsome
    · rintro ⟨hp, hw, hbnd, hsep, hkw⟩
      have hsd : laSepDigit r = false := by
        cases hc : laSepDigit r with
        | false => rfl
        | true => exact absurd ((laSepDigit_iff r).mp hc) hsep
      have hkd : laKeyword r = false := by
        cases hc : laKeyword r with
        | false => rfl
        | true => exact absurd ((laKeyword_iff r).mp hc) hkw
      split
      · dsimp only
        split
        · rfl
        · next hB =>
          exfalso
          apply hB
          rw [Bool.and_eq_true, Bool.and_eq_true, hsd, hkd]
          refine ⟨⟨?_, by decide⟩, by decide⟩
          rw [lastD_irrel ds d0 d0 ' ']
          exact hbnd
      · next hA =>
        exfalso
        apply hA
        rw [Bool.and_eq_true, Bool.and_eq_true]
        exact ⟨⟨eqP.mpr hp, eqW.mpr hw⟩, eqU⟩

/-- Witness for C4 (amended): horoo 2, previous character a space, and
rest `"#5"` — the digit is erased (`#` is not one of `- . /`, and no
keyword follows), as the theorem's guard predicts. -/
theorem C4_bare_erase_guard_witness :
    0 < 2 ∧
    ((tryBareHorooAt (natRepr 2) (some ' ') (natRepr 2 ++ lc "#5")).isSome = true ↔
      ((∀ p, (some ' ' : Option Char) = some p → isDigitChar p = false) ∧
        isWordO (some ' ') = false ∧
        bndAfter (lastD (natRepr 2) ' ') (lc "#5") = true ∧
        ¬ followedBySepDigit (lc "#5") ∧ ¬ followedByKeyword (lc "#5"))) :=
  ⟨by decide, C4_bare_erase_guard 2 (some ' ') (lc "#5") (by decide)⟩

/-- C4 (counterexample): in `"BZD 2 HOROO 2#5"` the resolved horoo is 2
and the bare `2` of `"2#5"` is immediately followed by `#` — one of the
`SEP_CHARS` building separators — and a digit; the claim says it must not
be erased, but the stripper does erase it (the look-ahead only guards
`- . /`), leaving the residual text `"#5"`. -/
theorem C4_sep_chars_guard_refuted :
    horooOf (lc "BZD 2 HOROO 2#5") = 2 ∧
    isSepChar '#' = true ∧ isDigitChar '5' = true ∧
    subBareHoroo ((lc "BZD   2#5").length + 1) (natRepr 2) none (lc "BZD   2#5")
      = lc "BZD    #5" ∧
    contentOf (lc "BZD 2 HOROO 2#5") = lc "#5" := by
  exact ⟨by decide, by decide, by decide, by decide, by decide⟩

theorem natRepr_korpusOK (n : Nat) : korpusOK (natRepr n) := by
  unfold natRepr
  split
  · exact Or.inl rfl
  · next hn =>
    refine Or.inr ⟨?_, ?_⟩
    · cases n with
      | zero => exact absurd rfl hn
      | succ m =>
        unfold natReprAux
        simp
    · refine List.all_eq_true.mpr fun c hc => ?_
      exact isKorpusChar_of_digit
        (List.all_eq_true.mp (natReprAux_all_digits n n) c hc)

theorem korpus_clean_OK (rem : List Char) : korpusOK (korpus_clean rem) := by
  simp only [korpus_clean]
  split
  · exact Or.inl rfl
  · next h =>
    exact Or.inr ⟨h, List.all_eq_true.mpr fun c hc => (List.mem_filter.mp hc).2⟩

theorem zero_korpusOK : korpusOK (lc "0") := Or.inl rfl

theorem fallback_korpusOK (cu : List Char) :
    korpusOK (find_building_block_fallback cu).korpus := by
  simp only [find_building_block_fallback]
  repeat' split
  all_goals try dsimp only
  all_goals first
    | exact korpus_clean_OK _
    | exact zero_korpusOK

theorem blocksPath_korpusOK (h : Nat) (cu : List Char) (st0 : BKX)
    (h0 : korpusOK st0.korpus) : korpusOK (blocksPath h cu st0).korpus := by
  simp only [blocksPath]
  repeat' split
  all_goals try dsimp only
  all_goals first
    | exact fallback_korpusOK _
    | exact korpus_clean_OK _
    | exact zero_korpusOK
    | exact h0

theorem buildingStage_korpusOK (h : Nat) (cu : List Char) :
    korpusOK (buildingStage h cu).korpus := by
  simp only [buildingStage]
  repeat' split
  all_goals try dsimp only
  all_goals first
    | exact natRepr_korpusOK _
    | exact zero_korpusOK
    | apply blocksPath_korpusOK
  all_goals first
    | exact natRepr_korpusOK _
    | exact zero_korpusOK

theorem finalize_conf_prop (s : List Char) (hid : Nat) (bk : BKX) (n : List Char) :
    (0 ≤ (finalizeResult s hid bk n).CONFIDENCE ∧
      (finalizeResult s hid bk n).CONFIDENCE ≤ 1) ∧
    ((finalizeResult s hid bk n).CONFIDENCE = 0 ↔
      ¬(0 < (finalizeResult s hid bk n).BAIR_PRED ∧
          0 < (finalizeResult s hid bk n).XAALGA_PRED) ∧
      ¬((finalizeResult s hid bk n).MATCHED_PATTERN = "xaalga only" ∧
          0 < (finalizeResult s hid bk n).XAALGA_PRED) ∧
      ¬((finalizeResult s hid bk n).MATCHED_PATTERN = "keyword_korpus_door" ∧
          0 < (finalizeResult s hid bk n).XAALGA_PRED)) := by
  simp only [finalizeResult]
  exact confOf_bounds_iff _ _ _

theorem finalize_ranges (s : List Char) (hid : Nat) (bk : BKX) (n : List Char) :
    ((finalizeResult s hid bk n).HOROOID_PRED = 0 ∨
      1 ≤ (finalizeResult s hid bk n).HOROOID_PRED ∧
        (finalizeResult s hid bk n).HOROOID_PRED ≤ 99) ∧
    ((finalizeResult s hid bk n).BAIR_PRED = 0 ∨
      1 ≤ (finalizeResult s hid bk n).BAIR_PRED ∧
        (finalizeResult s hid bk n).BAIR_PRED ≤ 99999) ∧
    ((finalizeResult s hid bk n).XAALGA_PRED = 0 ∨
      1 ≤ (finalizeResult s hid bk n).XAALGA_PRED ∧
        (finalizeResult s hid bk n).XAALGA_PRED ≤ 99999) := by
  simp only [finalizeResult]
  exact clamp_ranges_bounds _ _ _

theorem finalize_korpusOK (s : List Char) (hid : Nat) (bk : BKX) (n : List Char)
    (hk : korpusOK bk.korpus) : korpusOK (finalizeResult s hid bk n).KORPUS_PRED := by
  simp only [finalizeResult]
  split
  · exact zero_korpusOK
  · exact hk

/-- C2 (amended): for every input, `0 ≤ confidence ≤ 1`, and
`confidence = 0.0` holds iff it is not the case that both the returned
building and unit are positive, and no partial-credit pattern fired
(unit-only with a positive unit, or block+unit-without-building with a
positive unit). -/
theorem C2_confidence_bounds_iff (text : List Char) :
    (0 ≤ (parse_with_rules text).CONFIDENCE ∧
      (parse_with_rules text).CONFIDENCE ≤ 1) ∧
    ((parse_with_rules text).CONFIDENCE = 0 ↔
      ¬(0 < (parse_with_rules text).BAIR_PRED ∧
          0 < (parse_with_rules text).XAALGA_PRED) ∧
      ¬((parse_with_rules text).MATCHED_PATTERN = "xaalga only" ∧
          0 < (parse_with_rules text).XAALGA_PRED) ∧
      ¬((parse_with_rules text).MATCHED_PATTERN = "keyword_korpus_door" ∧
          0 < (parse_with_rules text).XAALGA_PRED)) :=
  finalize_conf_prop _ _ _ _

/-- C6: in every returned result the horoo id is 0 or in [1,99], the
building and unit numbers are each 0 or in [1,99999], and the block id is
"0" or a non-empty string of Latin/Cyrillic letters and digits only. -/
theorem C6_range_invariant (text : List Char) :
    ((parse_with_rules text).HOROOID_PRED = 0 ∨
      1 ≤ (parse_with_rules text).HOROOID_PRED ∧
        (parse_with_rules text).HOROOID_PRED ≤ 99) ∧
    ((parse_with_rules text).BAIR_PRED = 0 ∨
      1 ≤ (parse_with_rules text).BAIR_PRED ∧
        (parse_with_rules text).BAIR_PRED ≤ 99999) ∧
    ((parse_with_rules text).XAALGA_PRED = 0 ∨
      1 ≤ (parse_with_rules text).XAALGA_PRED ∧
        (parse_with_rules text).XAALGA_PRED ≤ 99999) ∧
    korpusOK (parse_with_rules text).KORPUS_PRED :=
  ⟨(finalize_ranges _ _ _ _).1, (finalize_ranges _ _ _ _).2.1,
    (finalize_ranges _ _ _ _).2.2,
    finalize_korpusOK _ _ _ _ (buildingStage_korpusOK _ _)⟩

theorem parse_as_finalize (text : List Char) :
    parse_with_rules text =
      finalizeResult (sumnameOf text) (horooOf text)
        (buildingStage (horooOf text) (contentOf text))
        (normalize_address text) := rfl

theorem buildingStage_not_keyword (h : Nat) (cu : List Char)
    (hkw : keywordMatched cu = false) :
    buildingStage h cu = blocksPath h cu (impState cu) := by
  revert hkw
  simp only [buildingStage, keywordMatched, impState]
  cases hb : (match searchNumKw (cu.length + 1) bairAlts none cu with
              | some n => some n
              | none => searchKwNum (cu.length + 1) bairAlts none cu) with
  | some b =>
    cases hkd : searchKorpusDoor (cu.length + 1) none cu with
    | some p =>
      intro hkw
      simp [hb, hkd] at hkw
    | none =>
      cases hkp : (match searchNumKw (cu.length + 1) korpusAlts none cu with
                   | some n => some n
                   | none => searchKwNum (cu.length + 1) korpusAlts none cu) with
      | some k =>
        intro hkw
        simp [hb, hkd, hkp] at hkw
      | none =>
        cases ht : (match searchNumKw (cu.length + 1) unitWordAlts none cu with
                    | some n => some n
                    | none => searchKwNum (cu.length + 1) unitWordAlts none cu) with
        | some t =>
          intro hkw
          simp [hb, hkd, hkp, ht] at hkw
        | none =>
          intro _
          simp [hb, hkd, hkp, ht]
  | none =>
    cases hkd : searchKorpusDoor (cu.length + 1) none cu with
    | some p =>
      intro hkw
      simp [hb, hkd] at hkw
    | none =>
      intro _
      simp [hb, hkd]

theorem blocksPath_special (h : Nat) (cu : List Char) (st0 : BKX)
    (b : List Char) (n m : Nat) (hh : 0 < h)
    (hblocks : numericBlocks cu = [b]) (htok : bairXaalgaToken b = some (n, m)) :
    blocksPath h cu st0 = ⟨n, lc "0", m, "bair-xaalga-no-korpus"⟩ := by
  have hcond : 0 < h ∧ ([b] : List (List Char)).length = 1 := ⟨hh, rfl⟩
  have hne1 : ¬(("bair-xaalga-no-korpus" : String) = "none" ∧
        2 ≤ ([b] : List (List Char)).length) := fun hc => absurd hc.1 (by decide)
  have hne2 : ¬(("bair-xaalga-no-korpus" : String) = "none") := by decide
  simp only [blocksPath, hblocks, htok]
  rw [if_pos hcond, if_neg hne1, if_neg hne2]

theorem natOfDigits_foldl_lt (d : List Char) :
    ∀ acc : Nat, d.all (fun c => isDigitChar c) = true →
      List.foldl (fun a c => 10 * a + (c.toNat - 48)) acc d < (acc + 1) * 10 ^ d.length := by
  induction d with
  | nil =>
    intro acc _
    simp only [List.foldl_nil, List.length_nil, pow_zero, mul_one]
    omega
  | cons c cs ih =>
    intro acc hall
    rw [List.all_cons, Bool.and_eq_true] at hall
    have hc : c.toNat - 48 ≤ 9 := by
      have := hall.1
      simp only [isDigitChar, Bool.and_eq_true, decide_eq_true_eq] at this
      omega
    have h1 := ih (10 * acc + (c.toNat - 48)) hall.2
    calc List.foldl (fun a c => 10 * a + (c.toNat - 48)) acc (c :: cs)
        = List.foldl (fun a c => 10 * a + (c.toNat - 48)) (10 * acc + (c.toNat - 48)) cs := rfl
      _ < (10 * acc + (c.toNat - 48) + 1) * 10 ^ cs.length := h1
      _ ≤ (10 * (acc + 1)) * 10 ^ cs.length := by
          have : 10 * acc + (c.toNat - 48) + 1 ≤ 10 * (acc + 1) := by omega
          exact Nat.mul_le_mul_right _ this
      _ = (acc + 1) * 10 ^ (c :: cs).length := by
          rw [List.length_cons]
          ring

theorem digitRunLe_bound (k : Nat) (s d r : List Char)
    (h : digitRunLe k s = some (d, r)) : natOfDigits d < 10 ^ k := by
  cases s with
  | nil => simp only [digitRunLe] at h; cases h
  | cons c rest =>
    simp only [digitRunLe] at h
    by_cases hc : isDigitChar c = true
    · rw [if_pos hc] at h
      by_cases hlen : (c :: rest.takeWhile (fun c => isDigitChar c)).length ≤ k
      · rw [if_pos hlen] at h
        simp only [Option.some.injEq, Prod.mk.injEq] at h
        obtain ⟨h1, h2⟩ := h
        subst h1
        have hall : (c :: rest.takeWhile (fun c => isDigitChar c)).all
            (fun c => isDigitChar c) = true := by
          rw [List.all_cons, Bool.and_eq_true]
          exact ⟨hc, List.all_eq_true.mpr fun x hx => List.mem_takeWhile_imp hx⟩
        have hfold := natOfDigits_foldl_lt _ 0 hall
        simp only [Nat.zero_add, Nat.one_mul] at hfold
        calc natOfDigits (c :: rest.takeWhile (fun c => isDigitChar c)) <
            10 ^ (c :: rest.takeWhile (fun c => isDigitChar c)).length := hfold
          _ ≤ 10 ^ k := Nat.pow_le_pow_right (by norm_num) hlen
      · rw [if_neg hlen] at h; cases h
    · rw [if_neg hc] at h; cases h

theorem bairXaalgaToken_bounds (b : List Char) (n m : Nat)
    (h : bairXaalgaToken b = some (n, m)) : n < 100000 ∧ m < 10000 := by
  simp only [bairXaalgaToken] at h
  cases heq1 : digitRunLe 5 (List.dropWhile (fun c => isSpaceChar c) b) with
  | none => rw [heq1] at h; cases h
  | some p =>
    rw [heq1] at h
    obtain ⟨d1, r1⟩ := p
    dsimp only at h
    cases heq2 : List.dropWhile (fun c => isSpaceChar c) r1 with
    | nil => rw [heq2] at h; cases h
    | cons sep r2 =>
      rw [heq2] at h
      dsimp only at h
      by_cases hsep : isDashDotSlash sep = true
      · rw [if_pos hsep] at h
        cases heq3 : digitRunLe 4 (List.dropWhile (fun c => isSpaceChar c) r2) with
        | none => rw [heq3] at h; cases h
        | some q =>
          rw [heq3] at h
          obtain ⟨d2, r3⟩ := q
          dsimp only at h
          by_cases hnil : List.dropWhile (fun c => isSpaceChar c) r3 = []
          · rw [if_pos hnil] at h
            simp only [Option.some.injEq, Prod.mk.injEq] at h
            obtain ⟨h1, h2⟩ := h
            subst h1; subst h2
            constructor
            · have hb := digitRunLe_bound 5 _ _ _ heq1
              norm_num at hb
              exact hb
            · have hb := digitRunLe_bound 4 _ _ _ heq3
              norm_num at hb
              exact hb
          · rw [if_neg hnil] at h; cases h
      · rw [if_neg hsep] at h; cases h

theorem clamp_ranges_keep_bair (h n m : Nat) (hb : n ≤ 99999) :
    (clamp_ranges h n m).2.1 = n := by
  simp only [clamp_ranges]
  split_ifs <;> simp_all

theorem clamp_ranges_keep_xaalga (h n m : Nat) (hm : m ≤ 99999) :
    (clamp_ranges h n m).2.2.1 = m := by
  simp only [clamp_ranges]
  split_ifs <;> simp_all

/-- C5 (amended): whenever the resolved horoo is positive, no keyword rule
matched, and exactly one whitespace-delimited numeric token remains in the
residual text, and that token has the form `N<sep>M` with separator one of
`- . /`, the result has building `N`, block `"0"`, unit `M` and the
single-token compact-form pattern tag. -/
theorem C5_single_token_compact (text : List Char) (b : List Char) (n m : Nat)
    (hh : 0 < horooOf text)
    (hkw : keywordMatched (contentOf text) = false)
    (hblocks : numericBlocks (contentOf text) = [b])
    (htok : bairXaalgaToken b = some (n, m)) :
    (parse_with_rules text).BAIR_PRED = n ∧
    (parse_with_rules text).KORPUS_PRED = lc "0" ∧
    (parse_with_rules text).XAALGA_PRED = m ∧
    (parse_with_rules text).MATCHED_PATTERN = "bair-xaalga-no-korpus" := by
  have hbound := bairXaalgaToken_bounds b n m htok
  rw [parse_as_finalize,
    buildingStage_not_keyword (horooOf text) (contentOf text) hkw,
    blocksPath_special (horooOf text) (contentOf text) (impState (contentOf text))
      b n m hh hblocks htok]
  refine ⟨?_, ?_, ?_, rfl⟩
  · show (clamp_ranges (horooOf text) n m).2.1 = n
    exact clamp_ranges_keep_bair _ _ _ (by omega)
  · show (if lc "0" = ([] : List Char) then lc "0" else lc "0") = lc "0"
    decide
  · show (clamp_ranges (horooOf text) n m).2.2.1 = m
    exact clamp_ranges_keep_xaalga _ _ _ (by omega)

/-- Witness for C5 (amended): the scenario `"ХУД 3 ХОРОО 10-9"` satisfies
every hypothesis (horoo 3, no keyword match, single numeric token
`"10-9"`) and the theorem yields building 10, block "0", unit 9. -/
theorem C5_single_token_compact_witness :
    0 < horooOf (lc "ХУД 3 ХОРОО 10-9") ∧
    keywordMatched (contentOf (lc "ХУД 3 ХОРОО 10-9")) = false ∧
    numericBlocks (contentOf (lc "ХУД 3 ХОРОО 10-9")) = [lc "10-9"] ∧
    bairXaalgaToken (lc "10-9") = some (10, 9) ∧
    (parse_with_rules (lc "ХУД 3 ХОРОО 10-9")).BAIR_PRED = 10 ∧
    (parse_with_rules (lc "ХУД 3 ХОРОО 10-9")).KORPUS_PRED = lc "0" ∧
    (parse_with_rules (lc "ХУД 3 ХОРОО 10-9")).XAALGA_PRED = 9 ∧
    (parse_with_rules (lc "ХУД 3 ХОРОО 10-9")).MATCHED_PATTERN
      = "bair-xaalga-no-korpus" := by
  refine ⟨by decide, by decide, by decide, by decide, ?_⟩
  have h := C5_single_token_compact (lc "ХУД 3 ХОРОО 10-9") (lc "10-9") 10 9
    (by decide) (by decide) (by decide) (by decide)
  exact ⟨h.1, h.2.1, h.2.2.1, h.2.2.2⟩

/-- C5 (counterexample): on input `"БЗД X 10-9"` the residual text is
`"X 10-9"`, whose single numeric token has the form `N<sep>M` — yet,
because no horoo was resolved, the engine returns building 0 and unit 0
rather than the claimed building 10, unit 9. -/
theorem C5_no_horoo_token_unparsed :
    numericBlocks (contentOf (lc "БЗД X 10-9")) = [lc "10-9"] ∧
    bairXaalgaToken (lc "10-9") = some (10, 9) ∧
    horooOf (lc "БЗД X 10-9") = 0 ∧
    (parse_with_rules (lc "БЗД X 10-9")).BAIR_PRED = 0 ∧
    (parse_with_rules (lc "БЗД X 10-9")).XAALGA_PRED = 0 ∧
    (parse_with_rules (lc "БЗД X 10-9")).MATCHED_PATTERN = "none" := by
  refine ⟨by decide, by decide, by decide, ?_, ?_, ?_⟩ <;>
    · have h : parse_with_rules (lc "БЗД X 10-9") =
          { SUMNAME_PRED := lc "БАЯНЗҮРХ", HOROOID_PRED := 0, BAIR_PRED := 0,
            KORPUS_PRED := lc "0", XAALGA_PRED := 0, CONFIDENCE := q0,
            MATCHED_PATTERN := "none", RULES_VERSION := "2026-02-10.4",
            NORMALIZED := lc "БЗД X 10-9", WARNINGS := ["not_enough_info"] } := by decide
      rw [h]

/-- C7: parsing `"БЗД 3-Р ХОРОО 2 БАЙР 4 КОРПУС 67 ТООТ"` yields district
БАЯНЗҮРХ, horoo 3, building 2, block "4", unit 67, matched pattern
`keyword_bair_korpus_toot` and confidence 0.99. -/
theorem C7_full_keyword_scenario :
    (parse_with_rules (lc "БЗД 3-Р ХОРОО 2 БАЙР 4 КОРПУС 67 ТООТ")).SUMNAME_PRED
        = lc "БАЯНЗҮРХ" ∧
    (parse_with_rules (lc "БЗД 3-Р ХОРОО 2 БАЙР 4 КОРПУС 67 ТООТ")).HOROOID_PRED = 3 ∧
    (parse_with_rules (lc "БЗД 3-Р ХОРОО 2 БАЙР 4 КОРПУС 67 ТООТ")).BAIR_PRED = 2 ∧
    (parse_with_rules (lc "БЗД 3-Р ХОРОО 2 БАЙР 4 КОРПУС 67 ТООТ")).KORPUS_PRED = lc "4" ∧
    (parse_with_rules (lc "БЗД 3-Р ХОРОО 2 БАЙР 4 КОРПУС 67 ТООТ")).XAALGA_PRED = 67 ∧
    (parse_with_rules (lc "БЗД 3-Р ХОРОО 2 БАЙР 4 КОРПУС 67 ТООТ")).MATCHED_PATTERN
        = "keyword_bair_korpus_toot" ∧
    (parse_with_rules (lc "БЗД 3-Р ХОРОО 2 БАЙР 4 КОРПУС 67 ТООТ")).CONFIDENCE
        = 99 / 100 := by
  have h : parse_with_rules (lc "БЗД 3-Р ХОРОО 2 БАЙР 4 КОРПУС 67 ТООТ") =
      { SUMNAME_PRED := lc "БАЯНЗҮРХ", HOROOID_PRED := 3, BAIR_PRED := 2,
        KORPUS_PRED := lc "4", XAALGA_PRED := 67, CONFIDENCE := q99,
        MATCHED_PATTERN := "keyword_bair_korpus_toot",
        RULES_VERSION := "2026-02-10.4",
        NORMALIZED := lc "БЗД 3-Р ХОРОО 2 БАЙР 4 КОРПУС 67 ТООТ",
        WARNINGS := [] } := by decide
  rw [h]
  exact ⟨rfl, rfl, rfl, rfl, rfl, rfl, q99_val⟩

/-- C9: parsing the empty string raises no exception (the model is a total
function) and returns district `""`, horoo 0, building 0, unit 0, block
`"0"`, confidence 0.0, with `"not_enough_info"` among the warnings. -/
theorem C9_empty_input :
    parse_with_rules (lc "") =
      { SUMNAME_PRED := [], HOROOID_PRED := 0, BAIR_PRED := 0,
        KORPUS_PRED := lc "0", XAALGA_PRED := 0, CONFIDENCE := 0,
        MATCHED_PATTERN := "none", RULES_VERSION := "2026-02-10.4",
        NORMALIZED := [], WARNINGS := ["not_enough_info"] } ∧
    "not_enough_info" ∈ (parse_with_rules (lc "")).WARNINGS := by
  have h : parse_with_rules (lc "") =
      { SUMNAME_PRED := [], HOROOID_PRED := 0, BAIR_PRED := 0,
        KORPUS_PRED := lc "0", XAALGA_PRED := 0, CONFIDENCE := q0,
        MATCHED_PATTERN := "none", RULES_VERSION := "2026-02-10.4",
        NORMALIZED := [], WARNINGS := ["not_enough_info"] } := by decide
  rw [h, q0_val]
  exact ⟨rfl, by simp⟩

/-- C8 (counterexample): parsing `"СБД 10/5 59"` does not leave the horoo
absent, contrary to the claim — the district-adjacent-number heuristic of
`_find_horoo` picks up `10` right after the alias `СБД`, and the result
reports horoo 10, not 0. -/
theorem C8_horoo_not_absent :
    (parse_with_rules (lc "СБД 10/5 59")).HOROOID_PRED = 10 ∧
    (parse_with_rules (lc "СБД 10/5 59")).HOROOID_PRED ≠ 0 := by
  have h : (parse_with_rules (lc "СБД 10/5 59")).HOROOID_PRED = 10 := by decide
  exact ⟨h, by rw [h]; decide⟩

/-- C8 (amended): parsing `"СБД 10/5 59"` yields district СҮХБААТАР with
horoo 10 (found by the district-adjacent-number heuristic), building 10,
block "5", unit 59, matched pattern `strict_content_blocks` and
confidence 0.98. -/
theorem C8_strict_blocks_scenario :
    (parse_with_rules (lc "СБД 10/5 59")).SUMNAME_PRED = lc "СҮХБААТАР" ∧
    (parse_with_rules (lc "СБД 10/5 59")).HOROOID_PRED = 10 ∧
    (parse_with_rules (lc "СБД 10/5 59")).BAIR_PRED = 10 ∧
    (parse_with_rules (lc "СБД 10/5 59")).KORPUS_PRED = lc "5" ∧
    (parse_with_rules (lc "СБД 10/5 59")).XAALGA_PRED = 59 ∧
    (parse_with_rules (lc "СБД 10/5 59")).MATCHED_PATTERN = "strict_content_blocks" ∧
    (parse_with_rules (lc "СБД 10/5 59")).CONFIDENCE = 98 / 100 := by
  have h : parse_with_rules (lc "СБД 10/5 59") =
      { SUMNAME_PRED := lc "СҮХБААТАР", HOROOID_PRED := 10, BAIR_PRED := 10,
        KORPUS_PRED := lc "5", XAALGA_PRED := 59, CONFIDENCE := q98,
        MATCHED_PATTERN := "strict_content_blocks",
        RULES_VERSION := "2026-02-10.4",
        NORMALIZED := lc "СБД 10/5 59", WARNINGS := [] } := by decide
  rw [h]
  exact ⟨rfl, rfl, rfl, rfl, rfl, rfl, q98_val⟩

/-- C3 (code evaluated at the failing input): on the residual text
`"BAIR 3 4 56 TOOT 7"` the implicit-triple pattern matches with building 3,
block 4, unit 56, yet the engine returns block "0" and the keyword-form
pattern tag: the `keyword_matched = True` set by the implicit-triple
branch is dead because line 355 resets `keyword_matched = False`, and the
keyword branch overwrites the triple's assignments. -/
theorem C3_implicit_triple_overwritten :
    searchImpRev ((stripContent (lc "BZD BAIR 3 4 56 TOOT 7") (lc "БАЯНЗҮРХ") 0).length + 1)
        none (stripContent (lc "BZD BAIR 3 4 56 TOOT 7") (lc "БАЯНЗҮРХ") 0)
      = some (3, 4, 56) ∧
    (parse_with_rules (lc "BZD BAIR 3 4 56 TOOT 7")).KORPUS_PRED = lc "0" ∧
    (parse_with_rules (lc "BZD BAIR 3 4 56 TOOT 7")).MATCHED_PATTERN
      = "keyword_bair_korpus_toot" ∧
    (parse_with_rules (lc "BZD BAIR 3 4 56 TOOT 7")).BAIR_PRED = 3 ∧
    (parse_with_rules (lc "BZD BAIR 3 4 56 TOOT 7")).XAALGA_PRED = 56 := by
  refine ⟨by decide, ?_, ?_, ?_, ?_⟩ <;>
    · have h : parse_with_rules (lc "BZD BAIR 3 4 56 TOOT 7") =
          { SUMNAME_PRED := lc "БАЯНЗҮРХ", HOROOID_PRED := 0, BAIR_PRED := 3,
            KORPUS_PRED := lc "0", XAALGA_PRED := 56, CONFIDENCE := q99,
            MATCHED_PATTERN := "keyword_bair_korpus_toot",
            RULES_VERSION := "2026-02-10.4",
            NORMALIZED := lc "BZD BAIR 3 4 56 TOOT 7",
            WARNINGS := [] } := by decide
      rw [h]

/-- C2 (counterexample): on input `"BZD BAIR 5 KORPUS 5"` the keyword rule
matches with building 5 but resolves no unit, so confidence is 0.0 while
the returned building number is 5 — refuting "confidence is 0 only if both
building and unit are 0". -/
theorem C2_conf_zero_with_building :
    (parse_with_rules (lc "BZD BAIR 5 KORPUS 5")).CONFIDENCE = 0 ∧
    (parse_with_rules (lc "BZD BAIR 5 KORPUS 5")).BAIR_PRED = 5 := by
  have h : parse_with_rules (lc "BZD BAIR 5 KORPUS 5") =
      { SUMNAME_PRED := lc "БАЯНЗҮРХ", HOROOID_PRED := 0, BAIR_PRED := 5,
        KORPUS_PRED := lc "5", XAALGA_PRED := 0, CONFIDENCE := q0,
        MATCHED_PATTERN := "keyword_bair_korpus_toot",
        RULES_VERSION := "2026-02-10.4",
        NORMALIZED := lc "BZD BAIR 5 KORPUS 5",
        WARNINGS := ["not_enough_info"] } := by decide
  rw [h, q0_val]
  exact ⟨rfl, rfl⟩

/-- C1 (counterexample): `normalize_address` is not idempotent. On input
`"Т2Т"` the first pass yields `"Т2 Т"`: the keyword-number glue cannot
fire (no word boundary after the digit in `Т2Т`), but the unit-glue rule,
which requires no boundary before its digit, splits `2Т`. The space it
inserts creates exactly the boundary after the digit that the
keyword-number glue needed, so a second pass fires it on `Т2` and yields
`"Т 2 Т"`. -/
theorem C1_normalize_not_idempotent :
    normalize_address (lc "Т2Т") = lc "Т2 Т" ∧
    normalize_address (normalize_address (lc "Т2Т")) = lc "Т 2 Т" ∧
    normalize_address (normalize_address (lc "Т2Т"))
      ≠ normalize_address (lc "Т2Т") :=
  ⟨by decide, by decide, by decide⟩

/-- C10 (counterexample): the engine result is not invariant under
pre-normalization. For raw input `"БЗД Т2Т"` the HTTP layer computes
`parse_with_rules (normalize_address raw)`; the engine re-normalizes
`"БЗД Т2 Т"` to `"БЗД Т 2 Т"`, on which the xaalga-only fallback matches
`Т 2` and returns unit 2, pattern `xaalga only`, confidence 0.30 — while
`parse_with_rules raw` returns unit 0, pattern `none`, confidence 0. -/
theorem C10_double_normalize_divergence :
    (parse_with_rules (lc "БЗД Т2Т")).XAALGA_PRED = 0 ∧
    (parse_with_rules (lc "БЗД Т2Т")).MATCHED_PATTERN = "none" ∧
    (parse_with_rules (normalize_address (lc "БЗД Т2Т"))).XAALGA_PRED = 2 ∧
    (parse_with_rules (normalize_address (lc "БЗД Т2Т"))).MATCHED_PATTERN
      = "xaalga only" ∧
    (parse_with_rules (normalize_address (lc "БЗД Т2Т"))).CONFIDENCE = q30 ∧
    parse_with_rules (normalize_address (lc "БЗД Т2Т"))
      ≠ parse_with_rules (lc "БЗД Т2Т") := by
  have h1 : parse_with_rules (lc "БЗД Т2Т") =
      { SUMNAME_PRED := lc "БАЯНЗҮРХ", HOROOID_PRED := 0, BAIR_PRED := 0,
        KORPUS_PRED := lc "0", XAALGA_PRED := 0, CONFIDENCE := q0,
        MATCHED_PATTERN := "none", RULES_VERSION := "2026-02-10.4",
        NORMALIZED := lc "БЗД Т2 Т", WARNINGS := ["not_enough_info"] } := by
    decide
  have h2 : parse_with_rules (normalize_address (lc "БЗД Т2Т")) =
      { SUMNAME_PRED := lc "БАЯНЗҮРХ", HOROOID_PRED := 0, BAIR_PRED := 0,
        KORPUS_PRED := lc "0", XAALGA_PRED := 2, CONFIDENCE := q30,
        MATCHED_PATTERN := "xaalga only", RULES_VERSION := "2026-02-10.4",
        NORMALIZED := lc "БЗД Т 2 Т", WARNINGS := ["partial_only_xaalga"] } := by
    decide
  rw [h1, h2]
  refine ⟨rfl, rfl, rfl, rfl, rfl, fun heq => ?_⟩
  exact absurd (congrArg ParseResult.XAALGA_PRED heq) (by decide)

end ML
